import Mathlib

/-!
Verification development for the crane blueprint execution engine.

The definitions below are a shallow embedding of the engine's core:
the variable-interpolation function, the tile (step) graph ordering,
the per-tile dispatcher, the sequence runner, and the variable
collection of the code generator.  Each definition is translated from
the corresponding source function (src/server/builder.ts,
src/server/compiler.ts and the standalone executor copies); time
measurement (Date.now durations) and raw screenshot bytes are not
modelled, adapter calls are modelled as pure functions returning
Except values together with an explicit event trace.
-/

namespace Crane

/-- JavaScript-like runtime values as they occur in the engine:
strings, numbers, booleans, null, extraction payloads, the object
recorded for a screenshot result and the object returned by an act
call.  Absence (JS undefined) is modelled with Option. -/
inductive JsValue where
  | str (s : String)
  | num (n : Int)
  | bool (b : Bool)
  | null
  | screenshot (size : Nat)
  | actRes (success : Bool) (message : Option String)
deriving DecidableEq, Repr

/-- JS String(v) default textual conversion for the modelled values:
objects stringify as [object Object]. -/
def jsToString : JsValue → String
  | .str s => s
  | .num n => toString n
  | .bool true => "true"
  | .bool false => "false"
  | .null => "null"
  | .screenshot _ => "[object Object]"
  | .actRes _ _ => "[object Object]"

/-- A variable bag: map from variable name to value, none = absent
(JS undefined). -/
def Bag : Type := String → Option JsValue

/-- The empty bag. -/
def emptyBag : Bag := fun _ => none

/-- outputs[key] = v assignment. -/
def updateBag (b : Bag) (k : String) (v : JsValue) : Bag :=
  fun q => if q = k then some v else b q

/-- The merged interpolation context of the runner,
JS spread of two objects: keys of the second override the first. -/
def mergeBags (vars outputs : Bag) : Bag :=
  fun q => match outputs q with
  | some v => some v
  | none => vars q

/-- JS String(x ?? ""): null and undefined become the empty string. -/
def jsStringD : Option JsValue → String
  | some .null => ""
  | some v => jsToString v
  | none => ""

/-- A regex word character, the character class of the backslash-w
escape in the placeholder pattern: ASCII letters, digits, underscore. -/
def isWordChar (c : Char) : Bool :=
  c.isAlphanum || c = '_'

/-- One character-level step result of the placeholder scanner:
either a literal character or a placeholder with the given name. -/
inductive Seg where
  | lit (c : Char)
  | ph (name : List Char)
deriving DecidableEq, Repr

/-- True on a placeholder segment. -/
def isPhSeg : Seg → Bool
  | .ph _ => true
  | .lit _ => false

/-- Leftmost, non-overlapping scan for occurrences of the placeholder
pattern (two opening braces, one or more word characters, two closing
braces), exactly as the global regex of interpolate and
extractVariables matches: at each position try to match, on failure
advance one character.  Fuel-driven; fuel at least the length of the
input makes the fuel bound unreachable. -/
def scanSegs : Nat → List Char → List Seg
  | 0, cs => cs.map Seg.lit
  | _ + 1, [] => []
  | fuel + 1, c :: cs =>
    if c = '\x7b' ∧ cs.head? = some '\x7b' then
      let rest := cs.tail
      let w := rest.takeWhile isWordChar
      let r2 := rest.dropWhile isWordChar
      if w ≠ [] ∧ r2.take 2 = ['\x7d', '\x7d'] then
        Seg.ph w :: scanSegs fuel (r2.drop 2)
      else
        Seg.lit c :: scanSegs fuel cs
    else
      Seg.lit c :: scanSegs fuel cs

/-- The original text of a segment (a placeholder re-renders as its
braced source text). -/
def segText : Seg → List Char
  | .lit c => [c]
  | .ph w => '\x7b' :: '\x7b' :: (w ++ ['\x7d', '\x7d'])

/-- The original text of a segment list. -/
def segsText : List Seg → List Char
  | [] => []
  | s :: rest => segText s ++ segsText rest

/-- Substitution semantics of one segment: a bound placeholder is
replaced with the default string conversion of the bound value, an
unbound placeholder is left intact, a literal is kept. -/
def renderSeg (vars : Bag) : Seg → List Char
  | .lit c => [c]
  | .ph w =>
    match vars (String.mk w) with
    | some v => (jsToString v).data
    | none => '\x7b' :: '\x7b' :: (w ++ ['\x7d', '\x7d'])

/-- Substitution semantics of a segment list. -/
def renderSegs (vars : Bag) : List Seg → List Char
  | [] => []
  | s :: rest => renderSeg vars s ++ renderSegs vars rest

/-- The body of interpolate: the regex replace over the character
list, with the same leftmost scan as scanSegs, substituting bound
placeholders and keeping unbound ones. -/
def interpAux (vars : Bag) : Nat → List Char → List Char
  | 0, cs => cs
  | _ + 1, [] => []
  | fuel + 1, c :: cs =>
    if c = '\x7b' ∧ cs.head? = some '\x7b' then
      let rest := cs.tail
      let w := rest.takeWhile isWordChar
      let r2 := rest.dropWhile isWordChar
      if w ≠ [] ∧ r2.take 2 = ['\x7d', '\x7d'] then
        renderSeg vars (Seg.ph w) ++ interpAux vars fuel (r2.drop 2)
      else
        c :: interpAux vars fuel cs
    else
      c :: interpAux vars fuel cs

/-- interpolate(template, variables) of builder.ts (same code in the
executor copies): replace each occurrence of a braced placeholder with
the string form of the bound value, keep unbound placeholders. -/
def interpolate (template : String) (vars : Bag) : String :=
  String.mk (interpAux vars template.data.length template.data)

/-- The template, as written, contains an occurrence of the
placeholder pattern: some decomposition into a front part, a
placeholder over a nonempty word-character name, and a back part. -/
def hasPlaceholder (cs : List Char) : Prop :=
  ∃ front w back,
    cs = front ++ ('\x7b' :: '\x7b' :: (w ++ ('\x7d' :: '\x7d' :: back))) ∧
    w ≠ [] ∧ ∀ c ∈ w, isWordChar c = true

/-! ### The step (tile) model -/

/-- One field descriptor of a FORM tile: instruction text, optional
literal value, optional variable reference (source field name:
variable). -/
structure FormField where
  instruction : String
  value : Option String := none
  var : Option String := none
deriving DecidableEq, Repr

/-- The parameter map of a tile, restricted to the keys the engine
reads; none models an absent key (JS undefined).  The source types
this as an open Record and casts on access. -/
structure TileParams where
  url : Option String := none
  instruction : Option String := none
  value : Option String := none
  var : Option String := none
  credentialField : Option String := none
  waitUntil : Option String := none
  timeout : Option Nat := none
  schema : Option JsValue := none
  outputVariable : Option String := none
  fullPage : Option Bool := none
  ms : Option Nat := none
  fields : List FormField := []
deriving DecidableEq, Repr

/-- JS truthiness of an optional string parameter: present and
nonempty. -/
def truthyStr : Option String → Bool
  | some s => s ≠ ""
  | none => false

/-- The connection pair of a tile: input = predecessor id or null,
output = successor id or null. -/
structure Connections where
  input : Option String
  output : Option String
deriving DecidableEq, Repr

/-- A tile (blueprint step): id, kind tag, label and parameters, and
the linked-list connections. -/
structure Tile where
  id : String
  type : String
  label : String := ""
  parameters : TileParams := {}
  connections : Connections := ⟨none, none⟩
deriving DecidableEq, Repr

/-- Result of executing one tile (duration not modelled). -/
inductive TStatus where
  | completed
  | failed
deriving DecidableEq, Repr

/-- A step result: step id, terminal status, optional payload,
optional error message. -/
structure TileResult where
  tileId : String
  status : TStatus
  result : Option JsValue := none
  error : Option String := none
deriving DecidableEq, Repr

/-! ### The action provider (adapter) and credential resolver -/

/-- Result object of an act call. -/
structure ActResult where
  success : Bool
  message : Option String := none
deriving DecidableEq, Repr

/-- Navigation options passed to the provider. -/
structure NavOpts where
  waitUntil : String
  timeout : Nat
deriving DecidableEq, Repr

/-- A resolved credential. -/
structure ResolvedCredential where
  username : String
  password : String
  fields : Option (List (String × String)) := none
deriving DecidableEq, Repr

/-- cred.fields?.[field] ?? "" lookup. -/
def credFieldLookup (fields : Option (List (String × String))) (field : String) : String :=
  match fields with
  | none => ""
  | some fs =>
    match fs.lookup field with
    | some v => v
    | none => ""

/-- The credential resolution capability; a call may itself throw
(Except.error), return no credential (ok none) or a credential. -/
def CredentialResolver : Type := String → Except String (Option ResolvedCredential)

/-- The action provider, modelled as pure deterministic functions;
Except.error models a thrown exception.  Screenshots are modelled by
their byte count. -/
structure Adapter where
  navigate : String → NavOpts → Except String Unit
  act : String → Except String ActResult
  extract : String → Option JsValue → Except String JsValue
  screenshot : Bool → Except String Nat
  currentUrl : Unit → Except String String
  close : Except String Unit

/-- One entry of the adapter/resolver call trace. -/
inductive AEvent where
  | navigate (url : String)
  | act (instruction : String)
  | extract (instruction : String)
  | screenshot
  | currentUrl
  | resolve (domain : String)
  | close
deriving DecidableEq, Repr

/-- Hostname extraction of the JS URL constructor, modelled for the
scheme://host[:port][/path] shapes the engine handles: everything
after the scheme separator up to the first slash, colon, question
mark or hash; no scheme separator is a thrown error.  dropScheme
consumes through the first scheme separator. -/
def dropScheme : List Char → Option (List Char)
  | ':' :: '/' :: '/' :: rest => some rest
  | _ :: cs => dropScheme cs
  | [] => none

/-- Hostname body, see urlHostname. -/
def urlHostname (u : String) : Except String String :=
  match dropScheme u.data with
  | some rest =>
    Except.ok (String.mk (rest.takeWhile
      (fun c => ¬ (c = '/' ∨ c = ':' ∨ c = '?' ∨ c = '#'))))
  | none => Except.error ("Invalid URL: " ++ u)

/-- JS template interpolation of a possibly absent message: undefined
renders as the text undefined. -/
def optStr : Option String → String
  | some s => s
  | none => "undefined"

/-! ### The tile dispatcher

executeTile of builder.ts (identical in the executor copies): a
switch over the nine tile kinds inside a try/catch.
executeTileEx is the try block: Except.error is an exception escaping
the switch, early failed results are ordinary ok values; executeTile
is the catch wrapper turning an exception into a failed result.  Both
also return the adapter/resolver call trace. -/

/-- The act result converted to the payload stored on a step result. -/
def actResVal (r : ActResult) : JsValue := .actRes r.success r.message

/-- The shared tail of CLICK, TYPE and SELECT: perform the act
instruction, status follows the reported success flag. -/
def actStep (tileId : String) (act : String → Except String ActResult)
    (msg : String) : Except String TileResult × List AEvent :=
  match act msg with
  | .error e => (.error e, [.act msg])
  | .ok r =>
    (.ok { tileId := tileId,
           status := if r.success then .completed else .failed,
           result := some (actResVal r),
           error := if r.success then none else r.message },
     [.act msg])

/-- The FORM field loop: resolve each field value as in TYPE's
literal/variable branches and type it; the first unsuccessful field
aborts the whole tile with a field-specific error (ok (some res));
ok none means every field succeeded. -/
def formLoop (tileId : String) (act : String → Except String ActResult)
    (vars : Bag) : List FormField → Except String (Option TileResult) × List AEvent
  | [] => (.ok none, [])
  | f :: rest =>
    let instr := interpolate f.instruction vars
    let value :=
      if truthyStr f.value then interpolate (f.value.getD "") vars
      else if truthyStr f.var then jsStringD (vars (f.var.getD ""))
      else ""
    let msg := "Type \"" ++ value ++ "\" into " ++ instr
    match act msg with
    | .error e => (.error e, [.act msg])
    | .ok r =>
      if r.success then
        ((formLoop tileId act vars rest).1, .act msg :: (formLoop tileId act vars rest).2)
      else
        (.ok (some { tileId := tileId, status := .failed,
                     error := some ("Failed to fill field \"" ++ instr ++ "\": "
                       ++ optStr r.message) }),
         [.act msg])

/-- The try block of executeTile: the switch over tile.type. -/
def executeTileEx (tile : Tile) (ad : Adapter) (vars : Bag)
    (creds : Option CredentialResolver) : Except String TileResult × List AEvent :=
  match tile.type with
  | "NAVIGATE" =>
    let url := interpolate (tile.parameters.url.getD "") vars
    let opts : NavOpts :=
      { waitUntil := tile.parameters.waitUntil.getD "load",
        timeout := tile.parameters.timeout.getD 30000 }
    (match ad.navigate url opts with
     | .error e => (.error e, [.navigate url])
     | .ok _ => (.ok { tileId := tile.id, status := .completed }, [.navigate url]))
  | "CLICK" =>
    let instr := interpolate (tile.parameters.instruction.getD "") vars
    actStep tile.id ad.act ("Click on " ++ instr)
  | "TYPE" =>
    let instr := interpolate (tile.parameters.instruction.getD "") vars
    if truthyStr tile.parameters.value then
      actStep tile.id ad.act ("Type \"" ++ interpolate (tile.parameters.value.getD "") vars
        ++ "\" into " ++ instr)
    else if truthyStr tile.parameters.var then
      actStep tile.id ad.act ("Type \"" ++ jsStringD (vars (tile.parameters.var.getD ""))
        ++ "\" into " ++ instr)
    else if truthyStr tile.parameters.credentialField ∧ creds.isSome then
      match creds with
      | none => actStep tile.id ad.act ("Type \"\" into " ++ instr)
      | some resolver =>
        match ad.currentUrl () with
        | .error e => (.error e, [.currentUrl])
        | .ok u =>
          match urlHostname u with
          | .error e => (.error e, [.currentUrl])
          | .ok domain =>
            match resolver domain with
            | .error e => (.error e, [.currentUrl, .resolve domain])
            | .ok none =>
              (.ok { tileId := tile.id, status := .failed,
                     error := some ("No credentials found for domain: " ++ domain) },
               [.currentUrl, .resolve domain])
            | .ok (some cred) =>
              let field := tile.parameters.credentialField.getD ""
              let value :=
                if field = "username" then cred.username
                else if field = "password" then cred.password
                else credFieldLookup cred.fields field
              ((actStep tile.id ad.act ("Type \"" ++ value ++ "\" into " ++ instr)).1,
               [.currentUrl, .resolve domain]
                 ++ (actStep tile.id ad.act ("Type \"" ++ value ++ "\" into " ++ instr)).2)
    else
      actStep tile.id ad.act ("Type \"\" into " ++ instr)
  | "AUTH" =>
    (match creds with
     | none =>
       (.ok { tileId := tile.id, status := .failed,
              error := some ("No credential resolver provided for AUTH tile") }, [])
     | some resolver =>
       match ad.currentUrl () with
       | .error e => (.error e, [.currentUrl])
       | .ok u =>
         match urlHostname u with
         | .error e => (.error e, [.currentUrl])
         | .ok domain =>
           match resolver domain with
           | .error e => (.error e, [.currentUrl, .resolve domain])
           | .ok none =>
             (.ok { tileId := tile.id, status := .failed,
                    error := some ("No credentials found for domain: " ++ domain) },
              [.currentUrl, .resolve domain])
           | .ok (some cred) =>
             let uMsg := "Type \"" ++ cred.username ++ "\" into the username or email field"
             match ad.act uMsg with
             | .error e => (.error e, [.currentUrl, .resolve domain, .act uMsg])
             | .ok ur =>
               if ¬ ur.success then
                 (.ok { tileId := tile.id, status := .failed,
                        error := some ("Failed to enter username: " ++ optStr ur.message) },
                  [.currentUrl, .resolve domain, .act uMsg])
               else
                 let pMsg := "Type \"" ++ cred.password ++ "\" into the password field"
                 match ad.act pMsg with
                 | .error e => (.error e, [.currentUrl, .resolve domain, .act uMsg, .act pMsg])
                 | .ok pr =>
                   if ¬ pr.success then
                     (.ok { tileId := tile.id, status := .failed,
                            error := some ("Failed to enter password: " ++ optStr pr.message) },
                      [.currentUrl, .resolve domain, .act uMsg, .act pMsg])
                   else
                     let sMsg := "Click the login or sign in button"
                     match ad.act sMsg with
                     | .error e =>
                       (.error e,
                        [.currentUrl, .resolve domain, .act uMsg, .act pMsg, .act sMsg])
                     | .ok sr =>
                       (.ok { tileId := tile.id,
                              status := if sr.success then .completed else .failed,
                              result := some (actResVal sr),
                              error := if sr.success then none else sr.message },
                        [.currentUrl, .resolve domain, .act uMsg, .act pMsg, .act sMsg]))
  | "EXTRACT" =>
    let instr := interpolate (tile.parameters.instruction.getD "") vars
    (match ad.extract instr tile.parameters.schema with
     | .error e => (.error e, [.extract instr])
     | .ok v =>
       (.ok { tileId := tile.id, status := .completed, result := some v }, [.extract instr]))
  | "SCREENSHOT" =>
    (match ad.screenshot (tile.parameters.fullPage.getD false) with
     | .error e => (.error e, [.screenshot])
     | .ok n =>
       (.ok { tileId := tile.id, status := .completed, result := some (.screenshot n) },
        [.screenshot]))
  | "WAIT" =>
    (.ok { tileId := tile.id, status := .completed }, [])
  | "SELECT" =>
    let instr := interpolate (tile.parameters.instruction.getD "") vars
    let value := interpolate (tile.parameters.value.getD "") vars
    actStep tile.id ad.act ("Select \"" ++ value ++ "\" from " ++ instr)
  | "FORM" =>
    (match (formLoop tile.id ad.act vars tile.parameters.fields).1 with
     | .error e => (.error e, (formLoop tile.id ad.act vars tile.parameters.fields).2)
     | .ok (some failRes) => (.ok failRes, (formLoop tile.id ad.act vars tile.parameters.fields).2)
     | .ok none =>
       (.ok { tileId := tile.id, status := .completed },
        (formLoop tile.id ad.act vars tile.parameters.fields).2))
  | other =>
    (.ok { tileId := tile.id, status := .failed,
           error := some ("Unknown tile type: " ++ other) }, [])

/-- executeTile: the catch wrapper — an exception escaping the switch
becomes a failed result carrying the exception message; exactly one
result is always produced. -/
def executeTile (tile : Tile) (ad : Adapter) (vars : Bag)
    (creds : Option CredentialResolver) : TileResult × List AEvent :=
  match (executeTileEx tile ad vars creds).1 with
  | .ok r => (r, (executeTileEx tile ad vars creds).2)
  | .error e =>
    ({ tileId := tile.id, status := .failed, error := some e },
     (executeTileEx tile ad vars creds).2)

/-! ### Step graph ordering

sortTiles of builder.ts: find the tile whose input connection is
null; if none, return the list unmodified; otherwise walk forward
through output pointers, guarding against revisits.  The while loop
is embedded with fuel; each iteration visits a fresh tile id drawn
from the list, so list-length fuel is never exhausted. -/

/-- The while loop of sortTiles: visited-check at the top, then push
the current tile and follow its output pointer through a lookup in
the tile list. -/
def walkTiles (tiles : List Tile) : Nat → Tile → List String → List Tile
  | 0, _, _ => []
  | fuel + 1, cur, visited =>
    if cur.id ∈ visited then []
    else
      cur ::
        (match cur.connections.output with
         | none => []
         | some nid =>
           match tiles.find? (fun t => t.id = nid) with
           | none => []
           | some nxt => walkTiles tiles fuel nxt (cur.id :: visited))

/-- sortTiles: identical in builder.ts, compiler.ts and the executor
copies (the compiler copy is given separately below). -/
def sortTiles (tiles : List Tile) : List Tile :=
  match tiles.find? (fun t => t.connections.input = none) with
  | none => tiles
  | some start => walkTiles tiles tiles.length start []

/-- The chain described by the ordering claim, written from its
words: starting at a given entry tile, repeatedly follow successor
pointers, stopping at a null successor or at an already-visited id
(steps whose id cannot be found are likewise the end of the chain). -/
def chainSpec (tiles : List Tile) : Nat → Tile → List String → List Tile
  | 0, cur, _ => [cur]
  | fuel + 1, cur, visited =>
    cur ::
      (match cur.connections.output with
       | none => []
       | some nid =>
         if nid ∈ visited ++ [cur.id] then []
         else
           match tiles.find? (fun t => t.id = nid) with
           | none => []
           | some nxt => chainSpec tiles fuel nxt (visited ++ [cur.id]))

/-- The chain from the entry point, with enough budget for every
tile. -/
def chainFromEntry (tiles : List Tile) (start : Tile) : List Tile :=
  chainSpec tiles (tiles.length - 1) start []

/-- The compiler's own copy of sortTiles (compiler.ts); textually the
same algorithm as the runner's. -/
def walkTilesC (tiles : List Tile) : Nat → Tile → List String → List Tile
  | 0, _, _ => []
  | fuel + 1, cur, visited =>
    if cur.id ∈ visited then []
    else
      cur ::
        (match cur.connections.output with
         | none => []
         | some nid =>
           match tiles.find? (fun t => t.id = nid) with
           | none => []
           | some nxt => walkTilesC tiles fuel nxt (cur.id :: visited))

/-- sortTiles as defined in compiler.ts. -/
def sortTilesC (tiles : List Tile) : List Tile :=
  match tiles.find? (fun t => t.connections.input = none) with
  | none => tiles
  | some start => walkTilesC tiles tiles.length start []

/-! ### The sequence runner

createExecutor.run / runBlueprintDirect: sort the tiles, dispatch
each in order against the merged bag of caller variables and outputs
captured so far, store completed EXTRACT payloads under the declared
output variable, stop at the first failure, and close the provider
once at the end with any close error swallowed. -/

/-- The output-capture step after one dispatch: a completed EXTRACT
tile with a truthy declared output variable stores its payload. -/
def updateIfStores (t : Tile) (r : TileResult) (outputs : Bag) : Bag :=
  if r.status = TStatus.completed ∧ t.type = "EXTRACT" then
    let outputVar := t.parameters.outputVariable.getD ""
    if outputVar = "" then outputs
    else updateBag outputs outputVar (r.result.getD .null)
  else outputs

/-- One executed step as the runner saw it: the tile, the
interpolation context it was dispatched with, its result, and the
outputs bag after its capture step. -/
structure Entry where
  tile : Tile
  ctx : Bag
  res : TileResult
  out : Bag

/-- The for loop of the runner over the sorted tiles: dispatch,
record, capture outputs, stop on failure. -/
def runSteps (ad : Adapter) (creds : Option CredentialResolver) (vars : Bag) :
    List Tile → Bag → List Entry × List AEvent
  | [], _ => ([], [])
  | t :: rest, outputs =>
    let r := (executeTile t ad (mergeBags vars outputs) creds).1
    let evs := (executeTile t ad (mergeBags vars outputs) creds).2
    let outputs2 := updateIfStores t r outputs
    let e : Entry := ⟨t, mergeBags vars outputs, r, outputs2⟩
    if r.status = TStatus.failed then ([e], evs)
    else
      (e :: (runSteps ad creds vars rest outputs2).1,
       evs ++ (runSteps ad creds vars rest outputs2).2)

/-- The run result shape (duration not modelled). -/
structure ExecutionResult where
  success : Bool
  outputs : Option Bag := none
  error : Option String := none
  tileResults : List TileResult := []

/-- Everything a direct-mode run produces: the run result, the
executed entries, and the adapter call trace. -/
structure RunOutput where
  result : ExecutionResult
  entries : List Entry
  events : List AEvent

/-- The direct (in-process) run: sort, execute with stop-on-failure,
aggregate the result, and close the provider in a finally block with
the close error swallowed. -/
def runBlueprint (ad : Adapter) (creds : Option CredentialResolver)
    (vars : Bag) (tiles : List Tile) : RunOutput :=
  let sorted := sortTiles tiles
  let entries := (runSteps ad creds vars sorted emptyBag).1
  let evs := (runSteps ad creds vars sorted emptyBag).2
  let results := entries.map (fun e => e.res)
  let success := results.all (fun r => r.status = TStatus.completed)
  let finalOut := ((entries.getLast?).map (fun e => e.out)).getD emptyBag
  let _closed := ad.close
  { result :=
      { success := success,
        outputs := if success then some finalOut else none,
        error :=
          if success then none
          else (results.find? (fun r => r.status = TStatus.failed)).bind (fun r => r.error),
        tileResults := results },
    entries := entries,
    events := evs ++ [.close] }

/-! ### The code generator's variable collection

compile of compiler.ts: sort the tiles with its own sortTiles copy,
then per generated tile extend the insertion-ordered input and output
variable sets.  The generated source text itself performs no adapter
call and is not modelled; the visited order and the two variable
sets are. -/

/-- The names of the placeholder occurrences of a template, in match
order — extractVariables of compiler.ts (same global regex as
interpolate). -/
def phNames (template : String) : List String :=
  (scanSegs template.data.length template.data).filterMap
    (fun s => match s with
      | .ph w => some (String.mk w)
      | .lit _ => none)

/-- JS Set insertion: append if not already present. -/
def addVar (s : List String) (n : String) : List String :=
  if n ∈ s then s else s ++ [n]

/-- Insert many names in order. -/
def addVars (s : List String) (ns : List String) : List String :=
  ns.foldl addVar s

/-- The generator context mutation of one tile's generator
(generateNavigate .. generateForm plus the unknown-kind fallthrough):
first component input variables, second output variables. -/
def collectTile (st : List String × List String) (tile : Tile) :
    List String × List String :=
  match tile.type with
  | "NAVIGATE" => (addVars st.1 (phNames (tile.parameters.url.getD "")), st.2)
  | "CLICK" => (addVars st.1 (phNames (tile.parameters.instruction.getD "")), st.2)
  | "TYPE" =>
    let i1 := addVars st.1 (phNames (tile.parameters.instruction.getD ""))
    let i2 := if truthyStr tile.parameters.value
      then addVars i1 (phNames (tile.parameters.value.getD "")) else i1
    let i3 := if truthyStr tile.parameters.var
      then addVar i2 (tile.parameters.var.getD "") else i2
    (i3, st.2)
  | "AUTH" => st
  | "EXTRACT" =>
    (addVars st.1 (phNames (tile.parameters.instruction.getD "")),
     addVar st.2 (tile.parameters.outputVariable.getD ""))
  | "SCREENSHOT" => st
  | "WAIT" => st
  | "SELECT" =>
    (addVars (addVars st.1 (phNames (tile.parameters.instruction.getD "")))
       (phNames (tile.parameters.value.getD "")), st.2)
  | "FORM" =>
    (tile.parameters.fields.foldl
      (fun acc f =>
        let a1 := addVars acc (phNames f.instruction)
        let a2 := if truthyStr f.value then addVars a1 (phNames (f.value.getD "")) else a1
        if truthyStr f.var then addVar a2 (f.var.getD "") else a2)
      st.1, st.2)
  | _ => st

/-- The input/output variable lists that compile reports, fed by the
tiles in the compiler's visit order. -/
def compileVars (tiles : List Tile) : List String × List String :=
  (sortTilesC tiles).foldl collectTile ([], [])

/-- Spec-level flat list of the input variable names one tile
contributes: the placeholder-referenced names of its scanned string
parameters, plus the directly referenced variable parameter of TYPE
and FORM tiles. -/
def tileInputNames (tile : Tile) : List String :=
  match tile.type with
  | "NAVIGATE" => phNames (tile.parameters.url.getD "")
  | "CLICK" => phNames (tile.parameters.instruction.getD "")
  | "TYPE" =>
    phNames (tile.parameters.instruction.getD "")
      ++ (if truthyStr tile.parameters.value
          then phNames (tile.parameters.value.getD "") else [])
      ++ (if truthyStr tile.parameters.var then [tile.parameters.var.getD ""] else [])
  | "EXTRACT" => phNames (tile.parameters.instruction.getD "")
  | "SELECT" =>
    phNames (tile.parameters.instruction.getD "")
      ++ phNames (tile.parameters.value.getD "")
  | "FORM" =>
    (tile.parameters.fields.map
      (fun f => phNames f.instruction
        ++ (if truthyStr f.value then phNames (f.value.getD "") else [])
        ++ (if truthyStr f.var then [f.var.getD ""] else []))).flatten
  | _ => []

/-- Spec-level flat list of the output variable names one tile
contributes: the declared output variable of an EXTRACT tile. -/
def tileOutputNames (tile : Tile) : List String :=
  if tile.type = "EXTRACT" then [tile.parameters.outputVariable.getD ""] else []

/-- The placeholder-referenced names across the given steps, as the
ordering claim words the input-variable set: only names that occur as
an interpolation placeholder in some string parameter. -/
def specPlaceholderNames (tiles : List Tile) : List String :=
  (tiles.map (fun t =>
    phNames (t.parameters.url.getD "")
      ++ phNames (t.parameters.instruction.getD "")
      ++ phNames (t.parameters.value.getD "")
      ++ (t.parameters.fields.map (fun f =>
            phNames f.instruction ++ phNames (f.value.getD ""))).flatten)).flatten

/-! ### Runner lemmas -/

section RunnerLemmas

variable (ad : Adapter) (creds : Option CredentialResolver) (vars : Bag)

/-- The executed entries carry exactly an initial segment of the
given tile list, in order. -/
theorem runSteps_tiles_take : ∀ (ts : List Tile) (o : Bag),
    (runSteps ad creds vars ts o).1.map (fun e => e.tile)
      = ts.take ((runSteps ad creds vars ts o).1.length) := by
  intro ts
  induction ts with
  | nil => intro o; rfl
  | cons t rest ih =>
    intro o
    by_cases h : (executeTile t ad (mergeBags vars o) creds).1.status = TStatus.failed
    · simp [runSteps, h]
    · simp [runSteps, h, ih]

/-- A status is completed or failed; not failed means completed. -/
theorem status_not_failed {s : TStatus} (h : ¬ s = TStatus.failed) :
    s = TStatus.completed := by
  cases s with
  | completed => rfl
  | failed => exact absurd rfl h

/-- Every entry except possibly the last is completed, and a failed
entry is the last one. -/
theorem runSteps_failed_last : ∀ (ts : List Tile) (o : Bag) (j : Nat) (e : Entry),
    (runSteps ad creds vars ts o).1[j]? = some e →
    e.res.status = TStatus.failed →
    (runSteps ad creds vars ts o).1.length = j + 1 ∧
      (∀ k ek, k < j → (runSteps ad creds vars ts o).1[k]? = some ek →
        ek.res.status = TStatus.completed) := by
  intro ts
  induction ts with
  | nil => intro o j e hj _; simp [runSteps] at hj
  | cons t rest ih =>
    intro o j e hj hf
    by_cases h : (executeTile t ad (mergeBags vars o) creds).1.status = TStatus.failed
    · simp only [runSteps, h, if_true] at hj ⊢
      match j with
      | 0 =>
        refine ⟨by simp, ?_⟩
        intro k ek hk; omega
      | j + 1 => simp at hj
    · simp only [runSteps, h, if_false] at hj ⊢
      match j with
      | 0 =>
        simp at hj
        rw [← hj] at hf
        exact absurd hf h
      | j + 1 =>
        simp at hj
        have := ih (updateIfStores t (executeTile t ad (mergeBags vars o) creds).1 o) j e hj hf
        refine ⟨by simp [this.1], ?_⟩
        intro k ek hk hke
        match k with
        | 0 =>
          simp at hke
          rw [← hke]
          exact status_not_failed h
        | k + 1 =>
          simp at hke
          exact this.2 k ek (by omega) hke

/-- find? of the failed predicate returns the first failed result. -/
theorem find_first_failed : ∀ (l : List TileResult) (j : Nat) (r : TileResult),
    l[j]? = some r → r.status = TStatus.failed →
    (∀ k rk, k < j → l[k]? = some rk → rk.status = TStatus.completed) →
    l.find? (fun x => x.status = TStatus.failed) = some r := by
  intro l
  induction l with
  | nil => intro j r hj; simp at hj
  | cons a l ih =>
    intro j r hj hf hk
    match j with
    | 0 =>
      simp at hj
      subst hj
      simp [List.find?, hf]
    | j + 1 =>
      simp at hj
      have ha : a.status = TStatus.completed := hk 0 a (by omega) (by simp)
      have : l.find? (fun x => x.status = TStatus.failed) = some r := by
        refine ih j r hj hf ?_
        intro k rk hkj hke
        exact hk (k + 1) rk (by omega) (by simpa using hke)
      simp [List.find?, ha, this]

/-- The head entry's interpolation context is the merge of the
caller's variables with the initial outputs, and its outputs bag is
its own capture step applied to them. -/
theorem runSteps_head : ∀ (ts : List Tile) (o : Bag) (e : Entry),
    (runSteps ad creds vars ts o).1[0]? = some e →
    e.ctx = mergeBags vars o ∧ e.out = updateIfStores e.tile e.res o := by
  intro ts o e h
  match ts with
  | [] => simp [runSteps] at h
  | t :: rest =>
    by_cases hf : (executeTile t ad (mergeBags vars o) creds).1.status = TStatus.failed
    · simp only [runSteps, hf, if_true] at h
      simp at h
      rw [← h]
      exact ⟨rfl, rfl⟩
    · simp only [runSteps, hf, if_false] at h
      simp at h
      rw [← h]
      exact ⟨rfl, rfl⟩

/-- Each later entry's interpolation context is the merge of the
caller's variables with the previous entry's outputs bag, and its
outputs bag is its own capture step applied to that. -/
theorem runSteps_chain : ∀ (ts : List Tile) (o : Bag) (j : Nat) (e e2 : Entry),
    (runSteps ad creds vars ts o).1[j]? = some e →
    (runSteps ad creds vars ts o).1[j + 1]? = some e2 →
    e2.ctx = mergeBags vars e.out ∧ e2.out = updateIfStores e2.tile e2.res e.out := by
  intro ts
  induction ts with
  | nil => intro o j e e2 hj; simp [runSteps] at hj
  | cons t rest ih =>
    intro o j e e2 hj hj2
    by_cases hf : (executeTile t ad (mergeBags vars o) creds).1.status = TStatus.failed
    · simp only [runSteps, hf, if_true] at hj hj2
      match j with
      | 0 => simp at hj2
      | j + 1 => simp at hj
    · simp only [runSteps, hf, if_false] at hj hj2
      match j with
      | 0 =>
        simp at hj hj2
        have := runSteps_head ad creds vars rest
          (updateIfStores t (executeTile t ad (mergeBags vars o) creds).1 o) e2 hj2
        rw [← hj]
        exact this
      | j + 1 =>
        simp at hj hj2
        exact ih _ j e e2 hj hj2

/-- The capture step never removes a binding from the outputs bag. -/
theorem updateIfStores_preserves (t : Tile) (r : TileResult) (o : Bag)
    (x : String) (v : JsValue) (h : o x = some v) :
    ∃ v2, updateIfStores t r o x = some v2 := by
  unfold updateIfStores
  split
  · by_cases he : t.parameters.outputVariable.getD "" = ""
    · simp [he, h]
    · simp only [he, if_false]
      unfold updateBag
      by_cases hx : x = t.parameters.outputVariable.getD ""
      · exact ⟨r.result.getD JsValue.null, by simp [hx]⟩
      · exact ⟨v, by simp [hx, h]⟩
  · exact ⟨v, h⟩

/-- A binding present in the initial outputs bag is present in every
entry's outputs bag. -/
theorem runSteps_out_of_init : ∀ (ts : List Tile) (o : Bag) (k : Nat) (ek : Entry)
    (x : String) (v : JsValue),
    (runSteps ad creds vars ts o).1[k]? = some ek →
    o x = some v → ∃ v2, ek.out x = some v2 := by
  intro ts
  induction ts with
  | nil => intro o k ek x v hk; simp [runSteps] at hk
  | cons t rest ih =>
    intro o k ek x v hk hx
    by_cases hf : (executeTile t ad (mergeBags vars o) creds).1.status = TStatus.failed
    · simp only [runSteps, hf, if_true] at hk
      match k with
      | 0 =>
        simp at hk
        rw [← hk]
        exact updateIfStores_preserves _ _ _ _ _ hx
      | k + 1 => simp at hk
    · simp only [runSteps, hf, if_false] at hk
      match k with
      | 0 =>
        simp at hk
        rw [← hk]
        exact updateIfStores_preserves _ _ _ _ _ hx
      | k + 1 =>
        simp at hk
        obtain ⟨v2, hv2⟩ :=
          updateIfStores_preserves t (executeTile t ad (mergeBags vars o) creds).1 o x v hx
        exact ih _ k ek x v2 hk hv2

/-- Outputs bags grow monotonically along the run: a binding in an
earlier entry's outputs bag is still bound in every later entry's. -/
theorem runSteps_out_mono : ∀ (ts : List Tile) (o : Bag) (j k : Nat) (e ek : Entry)
    (x : String) (v : JsValue),
    j ≤ k →
    (runSteps ad creds vars ts o).1[j]? = some e →
    (runSteps ad creds vars ts o).1[k]? = some ek →
    e.out x = some v → ∃ v2, ek.out x = some v2 := by
  intro ts
  induction ts with
  | nil => intro o j k e ek x v _ hj; simp [runSteps] at hj
  | cons t rest ih =>
    intro o j k e ek x v hjk hj hk hx
    by_cases hf : (executeTile t ad (mergeBags vars o) creds).1.status = TStatus.failed
    · simp only [runSteps, hf, if_true] at hj hk
      match j, k with
      | 0, 0 =>
        simp at hj hk
        rw [← hk, hj]
        exact ⟨v, hx⟩
      | 0, k + 1 => simp at hk
      | j + 1, _ => simp at hj
    · simp only [runSteps, hf, if_false] at hj hk
      match j, k with
      | 0, 0 =>
        simp at hj hk
        rw [← hk, hj]
        exact ⟨v, hx⟩
      | 0, k + 1 =>
        simp at hj hk
        rw [← hj] at hx
        exact runSteps_out_of_init ad creds vars rest _ k ek x v hk hx
      | j + 1, 0 => omega
      | j + 1, k + 1 =>
        simp at hj hk
        exact ih _ j k e ek x v (by omega) hj hk hx

end RunnerLemmas

/-- The capture step of this tile and result writes the binding named
x: a completed EXTRACT with truthy declared output variable equal
to x. -/
def storesInto (t : Tile) (r : TileResult) (x : String) : Prop :=
  r.status = TStatus.completed ∧ t.type = "EXTRACT" ∧
    t.parameters.outputVariable.getD "" ≠ "" ∧
    t.parameters.outputVariable.getD "" = x

instance (t : Tile) (r : TileResult) (x : String) : Decidable (storesInto t r x) := by
  unfold storesInto
  infer_instance

/-- A capture step that does not write x leaves the binding of x
unchanged. -/
theorem updateIfStores_other (t : Tile) (r : TileResult) (o : Bag) (x : String)
    (h : ¬ storesInto t r x) : updateIfStores t r o x = o x := by
  unfold updateIfStores
  split
  · next hc =>
    by_cases he : t.parameters.outputVariable.getD "" = ""
    · simp [he]
    · simp only [he, if_false]
      unfold updateBag
      by_cases hx : x = t.parameters.outputVariable.getD ""
      · exact absurd ⟨hc.1, hc.2, he, hx.symm⟩ h
      · simp [hx]
  · rfl

/-- A capture step that does write x binds x to the step's payload. -/
theorem updateIfStores_writes (t : Tile) (r : TileResult) (o : Bag) (x : String)
    (h : storesInto t r x) :
    updateIfStores t r o x = some (r.result.getD JsValue.null) := by
  obtain ⟨h1, h2, h3, h4⟩ := h
  unfold updateIfStores
  rw [if_pos ⟨h1, h2⟩, if_neg h3]
  unfold updateBag
  simp [h4]

section RunnerLemmas2

variable (ad : Adapter) (creds : Option CredentialResolver) (vars : Bag) (x : String)

/-- If no entry up to index m writes x, entry m's outputs bag binds x
exactly as the initial outputs bag does. -/
theorem runSteps_out_stable_from_init : ∀ (ts : List Tile) (o : Bag) (m : Nat) (em : Entry),
    (runSteps ad creds vars ts o).1[m]? = some em →
    (∀ k ek, k ≤ m → (runSteps ad creds vars ts o).1[k]? = some ek →
      ¬ storesInto ek.tile ek.res x) →
    em.out x = o x := by
  intro ts
  induction ts with
  | nil => intro o m em hm; simp [runSteps] at hm
  | cons t rest ih =>
    intro o m em hm hno
    by_cases hf : (executeTile t ad (mergeBags vars o) creds).1.status = TStatus.failed
    · simp only [runSteps, hf, if_true] at hm hno
      match m with
      | 0 =>
        simp at hm
        have h0 : ¬ storesInto t (executeTile t ad (mergeBags vars o) creds).1 x :=
          hno 0 ⟨t, mergeBags vars o, (executeTile t ad (mergeBags vars o) creds).1,
            updateIfStores t (executeTile t ad (mergeBags vars o) creds).1 o⟩
            (by omega) (by simp)
        rw [← hm]
        exact updateIfStores_other _ _ _ _ h0
      | m + 1 => simp at hm
    · simp only [runSteps, hf, if_false] at hm hno
      match m with
      | 0 =>
        simp at hm
        have h0 : ¬ storesInto t (executeTile t ad (mergeBags vars o) creds).1 x :=
          hno 0 ⟨t, mergeBags vars o, (executeTile t ad (mergeBags vars o) creds).1,
            updateIfStores t (executeTile t ad (mergeBags vars o) creds).1 o⟩
            (by omega) (by simp)
        rw [← hm]
        exact updateIfStores_other _ _ _ _ h0
      | m + 1 =>
        simp at hm
        have h0 : ¬ storesInto t (executeTile t ad (mergeBags vars o) creds).1 x :=
          hno 0 ⟨t, mergeBags vars o, (executeTile t ad (mergeBags vars o) creds).1,
            updateIfStores t (executeTile t ad (mergeBags vars o) creds).1 o⟩
            (by omega) (by simp)
        have hstep : updateIfStores t (executeTile t ad (mergeBags vars o) creds).1 o x = o x :=
          updateIfStores_other _ _ _ _ h0
        have := ih _ m em hm ?_
        · rw [this, hstep]
        · intro k ek hk hke
          exact hno (k + 1) ek (by omega) (by simpa using hke)

/-- If no entry strictly between i and m (inclusive of m) writes x,
entry m's outputs bag binds x exactly as entry i's does. -/
theorem runSteps_out_stable : ∀ (ts : List Tile) (o : Bag) (i m : Nat) (ei em : Entry),
    i ≤ m →
    (runSteps ad creds vars ts o).1[i]? = some ei →
    (runSteps ad creds vars ts o).1[m]? = some em →
    (∀ k ek, i < k → k ≤ m → (runSteps ad creds vars ts o).1[k]? = some ek →
      ¬ storesInto ek.tile ek.res x) →
    em.out x = ei.out x := by
  intro ts
  induction ts with
  | nil => intro o i m ei em _ hi; simp [runSteps] at hi
  | cons t rest ih =>
    intro o i m ei em him hi hm hno
    by_cases hf : (executeTile t ad (mergeBags vars o) creds).1.status = TStatus.failed
    · simp only [runSteps, hf, if_true] at hi hm hno
      match i, m with
      | 0, 0 =>
        simp at hi hm
        rw [← hi, ← hm]
      | 0, m + 1 => simp at hm
      | i + 1, _ => simp at hi
    · simp only [runSteps, hf, if_false] at hi hm hno
      match i, m with
      | 0, 0 =>
        simp at hi hm
        rw [← hi, ← hm]
      | 0, m + 1 =>
        simp at hi hm
        have := runSteps_out_stable_from_init ad creds vars x rest _ m em hm ?_
        · rw [this, ← hi]
        · intro k ek hk hke
          exact hno (k + 1) ek (by omega) (by omega) (by simpa using hke)
      | i + 1, 0 => omega
      | i + 1, m + 1 =>
        simp at hi hm
        refine ih _ i m ei em (by omega) hi hm ?_
        intro k ek hk1 hk2 hke
        exact hno (k + 1) ek (by omega) (by omega) (by simpa using hke)

end RunnerLemmas2

/-- An act step never emits a close event. -/
theorem actStep_no_close (tid : String) (act : String → Except String ActResult)
    (msg : String) : AEvent.close ∉ (actStep tid act msg).2 := by
  unfold actStep
  split <;> simp

/-- The FORM loop never emits a close event. -/
theorem formLoop_no_close (tid : String) (act : String → Except String ActResult)
    (vars : Bag) : ∀ fs : List FormField, AEvent.close ∉ (formLoop tid act vars fs).2 := by
  intro fs
  induction fs with
  | nil => simp [formLoop]
  | cons f rest ih =>
    simp only [formLoop]
    repeat' split
    all_goals simp_all

/-- The dispatcher try block never emits a close event. -/
theorem executeTileEx_no_close (t : Tile) (ad : Adapter) (v : Bag)
    (cr : Option CredentialResolver) : AEvent.close ∉ (executeTileEx t ad v cr).2 := by
  unfold executeTileEx
  split
  all_goals try simp only []
  all_goals repeat' split
  all_goals simp_all [actStep_no_close, formLoop_no_close, List.mem_append]

/-- The dispatcher never emits a close event. -/
theorem executeTile_no_close (t : Tile) (ad : Adapter) (v : Bag)
    (cr : Option CredentialResolver) : AEvent.close ∉ (executeTile t ad v cr).2 := by
  unfold executeTile
  split <;> exact executeTileEx_no_close t ad v cr

/-- The runner loop never emits a close event. -/
theorem runSteps_no_close (ad : Adapter) (creds : Option CredentialResolver)
    (vars : Bag) : ∀ (ts : List Tile) (o : Bag),
    AEvent.close ∉ (runSteps ad creds vars ts o).2 := by
  intro ts
  induction ts with
  | nil => intro o; simp [runSteps]
  | cons t rest ih =>
    intro o
    by_cases hf : (executeTile t ad (mergeBags vars o) creds).1.status = TStatus.failed
    · simp only [runSteps, hf, if_true]
      exact executeTile_no_close _ _ _ _
    · simp only [runSteps, hf, if_false]
      simp [List.mem_append, executeTile_no_close, ih]

/-- Dispatch does not read the provider's close function. -/
theorem executeTile_close_inv (t : Tile) (ad : Adapter) (c : Except String Unit)
    (v : Bag) (cr : Option CredentialResolver) :
    executeTile t { ad with close := c } v cr = executeTile t ad v cr := by
  cases ad
  rfl

/-- The runner loop does not read the provider's close function. -/
theorem runSteps_close_inv (ad : Adapter) (c : Except String Unit)
    (creds : Option CredentialResolver) (vars : Bag) : ∀ (ts : List Tile) (o : Bag),
    runSteps { ad with close := c } creds vars ts o = runSteps ad creds vars ts o := by
  intro ts
  induction ts with
  | nil => intro o; rfl
  | cons t rest ih =>
    intro o
    simp only [runSteps, executeTile_close_inv, ih]

/-! ### Concrete fixtures for witnesses and counterexamples -/

/-- A provider whose every call succeeds. -/
def stubAdapter : Adapter where
  navigate := fun _ _ => .ok ()
  act := fun _ => .ok { success := true }
  extract := fun i _ => .ok (.str i)
  screenshot := fun _ => .ok 3
  currentUrl := fun _ => .ok ("https://portal.example/login")
  close := .ok ()

/-- A provider that reports failure for the submit-button click and
success otherwise. -/
def failAdapter : Adapter where
  navigate := fun _ _ => .ok ()
  act := fun i =>
    if i = "Click on the submit button"
    then .ok { success := false, message := some ("no button") }
    else .ok { success := true }
  extract := fun i _ => .ok (.str i)
  screenshot := fun _ => .ok 3
  currentUrl := fun _ => .ok ("https://portal.example/login")
  close := .ok ()

/-- A three-step chain: navigate, click the submit button, click ok. -/
def wTile1 : Tile :=
  { id := "a", type := "NAVIGATE",
    parameters := { url := some ("https://x.test") },
    connections := ⟨none, some ("b")⟩ }

def wTile2 : Tile :=
  { id := "b", type := "CLICK",
    parameters := { instruction := some ("the submit button") },
    connections := ⟨some ("a"), some ("c")⟩ }

def wTile3 : Tile :=
  { id := "c", type := "CLICK",
    parameters := { instruction := some ("ok") },
    connections := ⟨some ("b"), none⟩ }

/-- The entry the runner records for the failing second step of the
three-step chain under failAdapter. -/
def wEntry2 : Entry :=
  ⟨wTile2, mergeBags emptyBag emptyBag,
   { tileId := "b", status := .failed,
     result := some (.actRes false (some ("no button"))),
     error := some ("no button") },
   emptyBag⟩

/-! ### Claim theorems -/

/-- C9: in direct mode the provider's close is invoked exactly once,
after step execution ends, on every path (the dispatcher catches step
exceptions, so the finally-scoped close always runs and is the last
provider call), and an error raised by close is swallowed: the run
output does not depend on the close function's outcome. -/
theorem c9_close_exactly_once (ad : Adapter) (creds : Option CredentialResolver)
    (vars : Bag) (tiles : List Tile) :
    (runBlueprint ad creds vars tiles).events.count AEvent.close = 1 ∧
    (runBlueprint ad creds vars tiles).events.getLast? = some AEvent.close ∧
    (∀ c, runBlueprint { ad with close := c } creds vars tiles
      = runBlueprint ad creds vars tiles) := by
  refine ⟨?_, ?_, ?_⟩
  · have h := runSteps_no_close ad creds vars (sortTiles tiles) emptyBag
    simp [runBlueprint, List.count_append, List.count_eq_zero.mpr h]
  · simp [runBlueprint]
  · intro c
    simp [runBlueprint, runSteps_close_inv]

/-- C2 (amended): the run's success flag is true iff every step
result is completed; the Step Result list being empty makes this
vacuously true, so a run whose ordering yields zero steps has
success = true (not false as claimed). -/
theorem c2_success_iff_all_completed (ad : Adapter) (creds : Option CredentialResolver)
    (vars : Bag) (tiles : List Tile) :
    ((runBlueprint ad creds vars tiles).result.success = true ↔
      ∀ r ∈ (runBlueprint ad creds vars tiles).result.tileResults,
        r.status = TStatus.completed) ∧
    (sortTiles tiles = [] → (runBlueprint ad creds vars tiles).result.success = true) := by
  constructor
  · simp [runBlueprint, List.all_eq_true]
  · intro h
    simp [runBlueprint, h, runSteps]

/-- C2 counterexample: a blueprint with zero tiles yields zero step
results and success = true, refuting the claim that success requires
a non-empty step result list (the claim asserts success = false
here). -/
theorem c2_counterexample :
    (runBlueprint stubAdapter none emptyBag []).result.success = true ∧
    (runBlueprint stubAdapter none emptyBag []).result.tileResults = [] := by
  exact ⟨rfl, rfl⟩

/-- C2 witness: the amended theorem applied to the empty blueprint. -/
theorem c2_witness :
    (runBlueprint stubAdapter none emptyBag []).result.success = true := by
  exact (c2_success_iff_all_completed stubAdapter none emptyBag []).2 rfl

/-- C3: the first failed step result halts the run: the step result
list is exactly the results of the ordered steps up to and including
the failed one (so no later step is dispatched), every earlier result
is completed, the run's success is false and its error is the failed
(first failed) step's error message. -/
theorem c3_stop_on_failure (ad : Adapter) (creds : Option CredentialResolver)
    (vars : Bag) (tiles : List Tile) (j : Nat) (e : Entry)
    (hj : (runBlueprint ad creds vars tiles).entries[j]? = some e)
    (hf : e.res.status = TStatus.failed) :
    (runBlueprint ad creds vars tiles).entries.length = j + 1 ∧
    (runBlueprint ad creds vars tiles).entries.map (fun en => en.tile)
      = (sortTiles tiles).take (j + 1) ∧
    (∀ k ek, k < j → (runBlueprint ad creds vars tiles).entries[k]? = some ek →
      ek.res.status = TStatus.completed) ∧
    (runBlueprint ad creds vars tiles).result.success = false ∧
    (runBlueprint ad creds vars tiles).result.error = e.res.error := by
  simp only [runBlueprint] at hj ⊢
  have hlast := runSteps_failed_last ad creds vars (sortTiles tiles) emptyBag j e hj hf
  have hmem : e ∈ (runSteps ad creds vars (sortTiles tiles) emptyBag).1 := by
    exact List.getElem?_mem hj
  have hall : ((runSteps ad creds vars (sortTiles tiles) emptyBag).1.map
      (fun en => en.res)).all (fun r => r.status = TStatus.completed) = false := by
    rcases hb : ((runSteps ad creds vars (sortTiles tiles) emptyBag).1.map
      (fun en => en.res)).all (fun r => r.status = TStatus.completed) with _ | _
    · exact hb
    · exfalso
      have := List.all_eq_true.mp hb e.res
        (List.mem_map_of_mem (fun en => en.res) hmem)
      simp at this
      rw [this] at hf
      exact absurd hf (by simp)
  have hrj : ((runSteps ad creds vars (sortTiles tiles) emptyBag).1.map
      (fun en => en.res))[j]? = some e.res := by
    simp [List.getElem?_map, hj]
  have hfind : ((runSteps ad creds vars (sortTiles tiles) emptyBag).1.map
      (fun en => en.res)).find? (fun r => r.status = TStatus.failed) = some e.res := by
    refine find_first_failed _ j e.res hrj hf ?_
    intro k rk hk hke
    simp [List.getElem?_map] at hke
    obtain ⟨ek, hek, hekr⟩ := hke
    rw [← hekr]
    exact hlast.2 k ek hk hek
  refine ⟨hlast.1, ?_, hlast.2, ?_, ?_⟩
  · have := runSteps_tiles_take ad creds vars (sortTiles tiles) emptyBag
    rw [hlast.1] at this
    exact this
  · exact hall
  · rw [hall]
    simp [hfind]

/-- C3 witness: the three-step chain under failAdapter fails at the
second step: exactly two results, success false, error equal to the
second step's message, and the third step never dispatched. -/
theorem c3_witness :
    (runBlueprint failAdapter none emptyBag [wTile1, wTile2, wTile3]).entries.length = 2 ∧
    (runBlueprint failAdapter none emptyBag [wTile1, wTile2, wTile3]).entries.map
      (fun en => en.tile) = [wTile1, wTile2] ∧
    (runBlueprint failAdapter none emptyBag [wTile1, wTile2, wTile3]).result.success = false ∧
    (runBlueprint failAdapter none emptyBag [wTile1, wTile2, wTile3]).result.error
      = some ("no button") := by
  have hj : (runBlueprint failAdapter none emptyBag [wTile1, wTile2, wTile3]).entries[1]?
      = some wEntry2 := by rfl
  have h := c3_stop_on_failure failAdapter none emptyBag [wTile1, wTile2, wTile3] 1 wEntry2
    hj (by rfl)
  refine ⟨h.1, ?_, h.2.2.2.1, ?_⟩
  · rw [h.2.1]
    rfl
  · rw [h.2.2.2.2]
    rfl

/-- Variables for the output-precedence scenario: the caller binds
code to old. -/
def xVars : Bag := fun k => if k = "code" then some (.str ("old")) else none

/-- An EXTRACT step storing under code, then a TYPE step reading the
variable code. -/
def xTile1 : Tile :=
  { id := "a", type := "EXTRACT",
    parameters := { instruction := some ("the code"), outputVariable := some ("code") },
    connections := ⟨none, some ("b")⟩ }

def xTile2 : Tile :=
  { id := "b", type := "TYPE",
    parameters := { instruction := some ("the field"), var := some ("code") },
    connections := ⟨some ("a"), none⟩ }

/-- The first entry of the precedence run: the extract stores its
payload under code. -/
def xEntry0 : Entry :=
  ⟨xTile1, mergeBags xVars emptyBag,
   { tileId := "a", status := .completed, result := some (.str ("the code")) },
   updateBag emptyBag ("code") (.str ("the code"))⟩

/-- The second entry of the precedence run. -/
def xEntry1 : Entry :=
  ⟨xTile2, mergeBags xVars (updateBag emptyBag ("code") (.str ("the code"))),
   { tileId := "b", status := .completed,
     result := some (.actRes true none) },
   updateBag emptyBag ("code") (.str ("the code"))⟩

/-- C10: every step's interpolation context is the caller's variable
bag merged with the outputs captured so far, and the merge gives the
outputs side precedence on a name collision, so a binding present in
the previous entry's outputs bag (for example an extracted value
shadowing a caller variable) is what later lookups see; bindings in
outputs bags persist for the rest of the run. -/
theorem c10_context_merge (ad : Adapter) (creds : Option CredentialResolver)
    (vars : Bag) (tiles : List Tile) :
    (∀ (e : Entry), (runBlueprint ad creds vars tiles).entries[0]? = some e →
      e.ctx = mergeBags vars emptyBag) ∧
    (∀ (j : Nat) (e e2 : Entry), (runBlueprint ad creds vars tiles).entries[j]? = some e →
      (runBlueprint ad creds vars tiles).entries[j + 1]? = some e2 →
      e2.ctx = mergeBags vars e.out) ∧
    (∀ (v o : Bag) (k : String) (x : JsValue), o k = some x → mergeBags v o k = some x) ∧
    (∀ (j : Nat) (e e2 : Entry) (k : String) (x : JsValue),
      (runBlueprint ad creds vars tiles).entries[j]? = some e →
      (runBlueprint ad creds vars tiles).entries[j + 1]? = some e2 →
      e.out k = some x → e2.ctx k = some x) ∧
    (∀ (i j : Nat) (e ej : Entry) (k : String) (x : JsValue), i ≤ j →
      (runBlueprint ad creds vars tiles).entries[i]? = some e →
      (runBlueprint ad creds vars tiles).entries[j]? = some ej →
      e.out k = some x → ∃ x2, ej.out k = some x2) := by
  simp only [runBlueprint]
  have hprec : ∀ (v o : Bag) (k : String) (x : JsValue), o k = some x →
      mergeBags v o k = some x := by
    intro v o k x h
    simp [mergeBags, h]
  refine ⟨?_, ?_, hprec, ?_, ?_⟩
  · intro e h0
    exact (runSteps_head ad creds vars (sortTiles tiles) emptyBag e h0).1
  · intro j e e2 hj hj2
    exact (runSteps_chain ad creds vars (sortTiles tiles) emptyBag j e e2 hj hj2).1
  · intro j e e2 k x hj hj2 hk
    rw [(runSteps_chain ad creds vars (sortTiles tiles) emptyBag j e e2 hj hj2).1]
    exact hprec vars e.out k x hk
  · intro i j e ej k x hij hi hjj hk
    exact runSteps_out_mono ad creds vars (sortTiles tiles) emptyBag i j e ej k x hij hi hjj hk

/-- C10 witness: the caller binds code to old, an EXTRACT stores the
payload under code, and the next step's context resolves code to the
extracted payload, not the caller's value. -/
theorem c10_witness :
    (runBlueprint stubAdapter none xVars [xTile1, xTile2]).entries[1]? = some xEntry1 ∧
    xEntry1.ctx ("code") = some (.str ("the code")) ∧
    xVars ("code") = some (.str ("old")) := by
  have h := c10_context_merge stubAdapter none xVars [xTile1, xTile2]
  refine ⟨rfl, ?_, rfl⟩
  exact h.2.2.2.1 0 xEntry0 xEntry1 ("code") (.str ("the code")) rfl rfl rfl

/-- The entry before an entry at a successor index exists. -/
theorem getElem?_of_succ {A : Type} (l : List A) (j : Nat) (a : A)
    (h : l[j + 1]? = some a) : ∃ b, l[j]? = some b := by
  have hlen : j + 1 < l.length := by
    by_contra hc
    push_neg at hc
    rw [List.getElem?_eq_none (by omega)] at h
    simp at h
  exact ⟨l.get ⟨j, by omega⟩, by rw [List.getElem?_eq_getElem (by omega)]; rfl⟩

/-- C6 (amended): a completed EXTRACT step with a truthy declared
output variable stores its payload into the outputs bag under that
name; the payload is visible in the interpolation context of every
subsequent step up to (and excluding) a later step that stores under
the same name; and the outputs bag's bindings grow monotonically —
a binding is never removed, though a later EXTRACT with the same
output name replaces its value. -/
theorem c6_extract_outputs (ad : Adapter) (creds : Option CredentialResolver)
    (vars : Bag) (tiles : List Tile) :
    (∀ (j : Nat) (e : Entry) (x : String),
      (runBlueprint ad creds vars tiles).entries[j]? = some e →
      storesInto e.tile e.res x →
      e.out x = some (e.res.result.getD JsValue.null)) ∧
    (∀ (i j : Nat) (e ej : Entry) (x : String), i < j →
      (runBlueprint ad creds vars tiles).entries[i]? = some e →
      (runBlueprint ad creds vars tiles).entries[j]? = some ej →
      storesInto e.tile e.res x →
      (∀ (k : Nat) (ek : Entry), i < k → k < j →
        (runBlueprint ad creds vars tiles).entries[k]? = some ek →
        ¬ storesInto ek.tile ek.res x) →
      ej.ctx x = some (e.res.result.getD JsValue.null)) ∧
    (∀ (i j : Nat) (e ej : Entry) (x : String) (v : JsValue), i ≤ j →
      (runBlueprint ad creds vars tiles).entries[i]? = some e →
      (runBlueprint ad creds vars tiles).entries[j]? = some ej →
      e.out x = some v → ∃ v2, ej.out x = some v2) := by
  simp only [runBlueprint]
  have hstore : ∀ (j : Nat) (e : Entry) (x : String),
      (runSteps ad creds vars (sortTiles tiles) emptyBag).1[j]? = some e →
      storesInto e.tile e.res x →
      e.out x = some (e.res.result.getD JsValue.null) := by
    intro j e x hj hs
    match j with
    | 0 =>
      rw [(runSteps_head ad creds vars (sortTiles tiles) emptyBag e hj).2]
      exact updateIfStores_writes _ _ _ _ hs
    | j + 1 =>
      obtain ⟨ep, hep⟩ := getElem?_of_succ _ j e hj
      rw [(runSteps_chain ad creds vars (sortTiles tiles) emptyBag j ep e hep hj).2]
      exact updateIfStores_writes _ _ _ _ hs
  refine ⟨hstore, ?_, ?_⟩
  · intro i j e ej x hij hi hj hs hno
    match j with
    | 0 => omega
    | m + 1 =>
      obtain ⟨em, hem⟩ := getElem?_of_succ _ m ej hj
      have hstable := runSteps_out_stable ad creds vars x (sortTiles tiles) emptyBag i m e em
        (by omega) hi hem ?_
      · have hctx := (runSteps_chain ad creds vars (sortTiles tiles) emptyBag m em ej hem hj).1
        rw [hctx]
        have hx : em.out x = some (e.res.result.getD JsValue.null) := by
          rw [hstable]
          exact hstore i e x hi hs
        simp [mergeBags, hx]
      · intro k ek hk1 hk2 hke
        exact hno k ek hk1 (by omega) hke
  · intro i j e ej x v hij hi hj hv
    exact runSteps_out_mono ad creds vars (sortTiles tiles) emptyBag i j e ej x v hij hi hj hv

/-- The double-extract fixture: two EXTRACT steps storing under the
same output name code, then a CLICK. -/
def yTile1 : Tile :=
  { id := "a", type := "EXTRACT",
    parameters := { instruction := some ("first"), outputVariable := some ("code") },
    connections := ⟨none, some ("b")⟩ }

def yTile2 : Tile :=
  { id := "b", type := "EXTRACT",
    parameters := { instruction := some ("second"), outputVariable := some ("code") },
    connections := ⟨some ("a"), some ("c")⟩ }

def yTile3 : Tile :=
  { id := "c", type := "CLICK",
    parameters := { instruction := some ("go") },
    connections := ⟨some ("b"), none⟩ }

def yOut1 : Bag := updateBag emptyBag ("code") (.str ("first"))

def yOut2 : Bag := updateBag yOut1 ("code") (.str ("second"))

def yEntry1 : Entry :=
  ⟨yTile1, mergeBags emptyBag emptyBag,
   { tileId := "a", status := .completed, result := some (.str ("first")) }, yOut1⟩

def yEntry2 : Entry :=
  ⟨yTile2, mergeBags emptyBag yOut1,
   { tileId := "b", status := .completed, result := some (.str ("second")) }, yOut2⟩

def yEntry3 : Entry :=
  ⟨yTile3, mergeBags emptyBag yOut2,
   { tileId := "c", status := .completed, result := some (.actRes true none) }, yOut2⟩

/-- C6 counterexample: step 1 is a completed EXTRACT whose payload
first is stored under code, yet step 3's interpolation context
resolves code to second (the overwriting step 2 payload), so the
claim that a completed EXTRACT payload is visible to every subsequent
step of the run is false as stated. -/
theorem c6_counterexample :
    (runBlueprint stubAdapter none emptyBag [yTile1, yTile2, yTile3]).entries[0]?
      = some yEntry1 ∧
    yEntry1.tile.type = "EXTRACT" ∧
    yEntry1.res.status = TStatus.completed ∧
    yEntry1.tile.parameters.outputVariable = some ("code") ∧
    yEntry1.res.result = some (.str ("first")) ∧
    (runBlueprint stubAdapter none emptyBag [yTile1, yTile2, yTile3]).entries[2]?
      = some yEntry3 ∧
    yEntry3.ctx ("code") = some (.str ("second")) ∧
    ¬ yEntry3.ctx ("code") = some (.str ("first")) := by
  refine ⟨rfl, rfl, rfl, rfl, rfl, rfl, by decide, by decide⟩

/-- C6 witness: the amended theorem applied to the double-extract
run: with no overwriting step strictly between steps 1 and 2, step
2's context resolves code to the first extract's payload. -/
theorem c6_witness :
    (runBlueprint stubAdapter none emptyBag [yTile1, yTile2, yTile3]).entries[1]?
      = some yEntry2 ∧
    yEntry2.ctx ("code") = some (.str ("first")) := by
  have h := c6_extract_outputs stubAdapter none emptyBag [yTile1, yTile2, yTile3]
  refine ⟨rfl, ?_⟩
  exact h.2.1 0 1 yEntry1 yEntry2 ("code") (by omega) rfl rfl (by decide)
    (fun k ek h1 h2 _ => absurd h2 (by omega))

/-- A tile found by the successor lookup carries the looked-up id. -/
theorem find_id_eq (tiles : List Tile) (nid : String) (nxt : Tile)
    (h : tiles.find? (fun t => t.id = nid) = some nxt) : nxt.id = nid := by
  have := List.find?_some h
  exact of_decide_eq_true this

/-- One-step unfolding of the while loop. -/
theorem walkTiles_succ (tiles : List Tile) (fuel : Nat) (cur : Tile)
    (visited : List String) :
    walkTiles tiles (fuel + 1) cur visited =
      (if cur.id ∈ visited then []
       else cur ::
        (match cur.connections.output with
         | none => []
         | some nid =>
           match tiles.find? (fun t => t.id = nid) with
           | none => []
           | some nxt => walkTiles tiles fuel nxt (cur.id :: visited))) := rfl

/-- One-step unfolding of the claim's chain walk. -/
theorem chainSpec_succ (tiles : List Tile) (fuel : Nat) (cur : Tile)
    (visited : List String) :
    chainSpec tiles (fuel + 1) cur visited =
      cur ::
        (match cur.connections.output with
         | none => []
         | some nid =>
           if nid ∈ visited ++ [cur.id] then []
           else
             match tiles.find? (fun t => t.id = nid) with
             | none => []
             | some nxt => chainSpec tiles fuel nxt (visited ++ [cur.id])) := rfl

/-- The while loop of sortTiles computes exactly the claim's chain:
from the entry tile, repeatedly follow successor pointers, stopping
at a null successor or an already-visited id. -/
theorem walk_eq_chainSpec : ∀ (fuel : Nat) (tiles : List Tile) (cur : Tile)
    (v1 v2 : List String), (∀ s, s ∈ v1 ↔ s ∈ v2) → cur.id ∉ v1 →
    walkTiles tiles (fuel + 1) cur v1 = chainSpec tiles fuel cur v2 := by
  intro fuel
  induction fuel with
  | zero =>
    intro tiles cur v1 v2 _ hnin
    rw [walkTiles_succ, if_neg hnin]
    show _ = [cur]
    cases cur.connections.output with
    | none => rfl
    | some nid =>
      simp only []
      cases tiles.find? (fun t => t.id = nid) with
      | none => rfl
      | some nxt => rfl
  | succ fuel ih =>
    intro tiles cur v1 v2 hequiv hnin
    rw [walkTiles_succ, if_neg hnin, chainSpec_succ]
    cases hout : cur.connections.output with
    | none => rfl
    | some nid =>
      simp only []
      by_cases hmem : nid ∈ v2 ++ [cur.id]
      · rw [if_pos hmem]
        cases hfind : tiles.find? (fun t => t.id = nid) with
        | none => rfl
        | some nxt =>
          simp only []
          have hid := find_id_eq tiles nid nxt hfind
          have hin : nxt.id ∈ cur.id :: v1 := by
            rw [hid]
            rcases List.mem_append.mp hmem with h | h
            · exact List.mem_cons_of_mem _ ((hequiv nid).mpr h)
            · simp at h
              simp [h]
          rw [walkTiles_succ, if_pos hin]
      · rw [if_neg hmem]
        cases hfind : tiles.find? (fun t => t.id = nid) with
        | none => rfl
        | some nxt =>
          simp only []
          have hid := find_id_eq tiles nid nxt hfind
          refine congrArg (fun l => cur :: l) ?_
          refine ih tiles nxt (cur.id :: v1) (v2 ++ [cur.id]) ?_ ?_
          · intro s
            simp [List.mem_append, hequiv s]
            tauto
          · rw [hid]
            intro hin
            rcases List.mem_cons.mp hin with h | h
            · exact hmem (List.mem_append.mpr (Or.inr (by simp [h])))
            · exact hmem (List.mem_append.mpr (Or.inl ((hequiv nid).mp h)))

/-- C4: with no entry point (no tile whose predecessor pointer is
null) the ordering returns the input unchanged; with an entry point
(the first tile found with a null predecessor) it returns exactly the
chain obtained by following successor pointers from it, stopping at a
null successor or an already-visited id — so steps off that chain are
dropped; and for a straight three-tile chain the result is the chain
order regardless of the order of the input array. -/
theorem c4_ordering (tiles : List Tile) :
    ((∀ t ∈ tiles, t.connections.input ≠ none) → sortTiles tiles = tiles) ∧
    (∀ start : Tile, tiles.find? (fun t => t.connections.input = none) = some start →
      sortTiles tiles = chainFromEntry tiles start) ∧
    (∀ (A B C : Tile) (perm : List Tile),
      A.id ≠ B.id → A.id ≠ C.id → B.id ≠ C.id →
      A.connections = ⟨none, some B.id⟩ →
      B.connections = ⟨some A.id, some C.id⟩ →
      C.connections = ⟨some B.id, none⟩ →
      (perm = [A, B, C] ∨ perm = [A, C, B] ∨ perm = [B, A, C] ∨
        perm = [B, C, A] ∨ perm = [C, A, B] ∨ perm = [C, B, A]) →
      sortTiles perm = [A, B, C]) := by
  refine ⟨?_, ?_, ?_⟩
  · intro h
    have : tiles.find? (fun t => t.connections.input = none) = none := by
      rw [List.find?_eq_none]
      intro t ht
      simpa using h t ht
    simp [sortTiles, this]
  · intro start hfind
    have hmem : start ∈ tiles := List.mem_of_find?_eq_some hfind
    have hlen : 1 ≤ tiles.length := List.length_pos.mpr (by
      intro hnil
      rw [hnil] at hmem
      simp at hmem)
    unfold sortTiles chainFromEntry
    rw [hfind]
    have heq : tiles.length = (tiles.length - 1) + 1 := by omega
    rw [heq]
    exact walk_eq_chainSpec (tiles.length - 1) tiles start [] [] (by simp) (by simp)
  · intro A B C perm hab hac hbc hA hB hC hperm
    have hab2 : B.id ≠ A.id := Ne.symm hab
    have hac2 : C.id ≠ A.id := Ne.symm hac
    have hbc2 : C.id ≠ B.id := Ne.symm hbc
    rcases hperm with h | h | h | h | h | h <;> subst h <;>
      simp [sortTiles, List.find?, walkTiles, hA, hB, hC,
        hab, hac, hbc, hab2, hac2, hbc2]

/-- A two-tile cycle with no entry point. -/
def cycTile1 : Tile :=
  { id := "p", type := "WAIT", connections := ⟨some ("q"), some ("q")⟩ }

def cycTile2 : Tile :=
  { id := "q", type := "WAIT", connections := ⟨some ("p"), some ("p")⟩ }

/-- C4 witness: the ordering theorem applied to concrete inputs — a
no-entry cycle is returned unchanged, the sorted chain equals the
claim's chain from the entry, and a shuffled straight chain sorts to
chain order. -/
theorem c4_witness :
    sortTiles [cycTile1, cycTile2] = [cycTile1, cycTile2] ∧
    sortTiles [wTile1, wTile2, wTile3]
      = chainFromEntry [wTile1, wTile2, wTile3] wTile1 ∧
    sortTiles [wTile2, wTile3, wTile1] = [wTile1, wTile2, wTile3] := by
  refine ⟨?_, ?_, ?_⟩
  · exact (c4_ordering [cycTile1, cycTile2]).1 (by decide)
  · exact (c4_ordering [wTile1, wTile2, wTile3]).2.1 wTile1 (by rfl)
  · exact (c4_ordering [wTile2, wTile3, wTile1]).2.2 wTile1 wTile2 wTile3
      [wTile2, wTile3, wTile1]
      (by decide) (by decide) (by decide) (by rfl) (by rfl) (by rfl)
      (Or.inr (Or.inr (Or.inr (Or.inl rfl))))

/-- The nine dispatchable tile kinds. -/
def tileKinds : List String :=
  ["NAVIGATE", "CLICK", "TYPE", "AUTH", "EXTRACT", "SCREENSHOT", "WAIT", "SELECT", "FORM"]

/-- An act step's ok result carries the given step id. -/
theorem actStep_tileId (tid : String) (act : String → Except String ActResult)
    (msg : String) : ∀ r, (actStep tid act msg).1 = .ok r → r.tileId = tid := by
  unfold actStep
  split
  · intro r hr
    simp at hr
  · intro r hr
    simp at hr
    rw [← hr]

/-- The FORM loop's failing result carries the given step id. -/
theorem formLoop_tileId (tid : String) (act : String → Except String ActResult)
    (vars : Bag) : ∀ (fs : List FormField) r,
    (formLoop tid act vars fs).1 = .ok (some r) → r.tileId = tid := by
  intro fs
  induction fs with
  | nil => intro r hr; simp [formLoop] at hr
  | cons f rest ih =>
    intro r hr
    simp only [formLoop] at hr
    split at hr
    · simp at hr
    · split at hr
      · exact ih r hr
      · simp at hr
        rw [← hr]

/-- C7: the tile dispatcher is total — it returns exactly one step
result, for the dispatched tile's id, and never propagates an
exception: an exception escaping the dispatch switch (a thrown
adapter, resolver or URL error) is caught and becomes a failed result
carrying the exception's message, and an unrecognized kind (any tag
outside the nine) yields a failed result with the unknown-tile-type
error without any adapter call. -/
theorem c7_dispatch_total (t : Tile) (ad : Adapter) (v : Bag)
    (cr : Option CredentialResolver) :
    (executeTile t ad v cr).1.tileId = t.id ∧
    (∀ e evs, executeTileEx t ad v cr = (.error e, evs) →
      executeTile t ad v cr
        = ({ tileId := t.id, status := .failed, error := some e }, evs)) ∧
    (t.type ∉ tileKinds →
      executeTile t ad v cr
        = ({ tileId := t.id, status := .failed,
             error := some ("Unknown tile type: " ++ t.type) }, [])) := by
  have hok : ∀ r, (executeTileEx t ad v cr).1 = .ok r → r.tileId = t.id := by
    unfold executeTileEx
    split
    all_goals try simp only []
    all_goals repeat' split
    all_goals intro r hr
    all_goals try exact actStep_tileId _ _ _ r hr
    all_goals simp at hr
    all_goals try (rw [← hr])
    all_goals (rename_i heq; exact formLoop_tileId _ _ _ _ _ heq)
  refine ⟨?_, ?_, ?_⟩
  · unfold executeTile
    split
    · next r heq => exact hok r heq
    · rfl
  · intro e evs h
    simp [executeTile, h]
  · intro hn
    have hEx : executeTileEx t ad v cr
        = (.ok { tileId := t.id, status := .failed,
                 error := some ("Unknown tile type: " ++ t.type) }, []) := by
      unfold executeTileEx
      split <;> simp_all [tileKinds]
    simp [executeTile, hEx]

/-- A tile with an unrecognized kind tag. -/
def fooTile : Tile := { id := "z", type := "FOO" }

/-- A provider whose navigate throws. -/
def errNavAdapter : Adapter :=
  { stubAdapter with navigate := fun _ _ => .error ("boom") }

/-- C7 witness: an unknown kind yields the failed unknown-type
result, and a thrown navigate error is converted into a failed result
carrying the exception message. -/
theorem c7_witness :
    executeTile fooTile stubAdapter emptyBag none
      = ({ tileId := "z", status := .failed,
           error := some ("Unknown tile type: FOO") }, []) ∧
    executeTile wTile1 errNavAdapter emptyBag none
      = ({ tileId := "a", status := .failed, error := some ("boom") },
         [AEvent.navigate ("https://x.test")]) := by
  constructor
  · exact (c7_dispatch_total fooTile stubAdapter emptyBag none).2.2 (by decide)
  · exact (c7_dispatch_total wTile1 errNavAdapter emptyBag none).2.1
      ("boom") [AEvent.navigate ("https://x.test")] rfl

/-- An act step records exactly its one act call. -/
theorem actStep_events (tid : String) (act : String → Except String ActResult)
    (msg : String) : (actStep tid act msg).2 = [AEvent.act msg] := by
  unfold actStep
  split <;> rfl

/-- C1 (amended): for a TYPE tile whose parameters carry a truthy
credentialField but no truthy value and no truthy variable
parameter — if no credential resolver is configured the dispatcher
does not fail: the guard requires both the parameter and a resolver,
so it falls through to the default branch and asks the provider to
type the empty string (one act call, status following the provider);
if a resolver is configured but returns no credential for the current
page's domain, the step fails with an error naming the domain, and
the provider's act is never invoked. -/
theorem c1_type_credential (t : Tile) (ad : Adapter) (v : Bag)
    (h1 : t.type = "TYPE")
    (h2 : truthyStr t.parameters.credentialField = true)
    (h3 : truthyStr t.parameters.value = false)
    (h4 : truthyStr t.parameters.var = false) :
    (executeTileEx t ad v none
      = actStep t.id ad.act
          ("Type \"\" into " ++ interpolate (t.parameters.instruction.getD "") v)) ∧
    ((executeTile t ad v none).2
      = [AEvent.act
          ("Type \"\" into " ++ interpolate (t.parameters.instruction.getD "") v)]) ∧
    (∀ (resolver : CredentialResolver) (u d : String),
      ad.currentUrl () = .ok u → urlHostname u = .ok d → resolver d = .ok none →
      executeTile t ad v (some resolver)
        = ({ tileId := t.id, status := .failed,
             error := some ("No credentials found for domain: " ++ d) },
           [AEvent.currentUrl, AEvent.resolve d])) := by
  have ha : executeTileEx t ad v none
      = actStep t.id ad.act
          ("Type \"\" into " ++ interpolate (t.parameters.instruction.getD "") v) := by
    simp [executeTileEx, h1, h2, h3, h4]
  refine ⟨ha, ?_, ?_⟩
  · unfold executeTile
    rw [ha]
    have he := actStep_events t.id ad.act
      ("Type \"\" into " ++ interpolate (t.parameters.instruction.getD "") v)
    split <;> rw [← he]
  · intro resolver u d hu hd hres
    have hb : executeTileEx t ad v (some resolver)
        = (.ok { tileId := t.id, status := .failed,
                 error := some ("No credentials found for domain: " ++ d) },
           [AEvent.currentUrl, AEvent.resolve d]) := by
      simp [executeTileEx, h1, h2, h3, h4, hu, hd, hres]
    simp [executeTile, hb]

/-- A TYPE tile with only a credentialField parameter. -/
def c1Tile : Tile :=
  { id := "t", type := "TYPE",
    parameters := { instruction := some ("the password field"),
                    credentialField := some ("password") } }

/-- A resolver that never finds a credential. -/
def noCredResolver : CredentialResolver := fun _ => .ok none

/-- C1 counterexample: with a credentialField parameter and no
resolver configured, the dispatcher does not produce a failed result
naming the missing resolver — it invokes the provider's act once
(typing the empty string) and completes when the provider succeeds,
refuting the claim as stated. -/
theorem c1_counterexample :
    (executeTile c1Tile stubAdapter emptyBag none).1.status = TStatus.completed ∧
    (executeTile c1Tile stubAdapter emptyBag none).1.error = none ∧
    (executeTile c1Tile stubAdapter emptyBag none).2
      = [AEvent.act ("Type \"\" into the password field")] := by
  exact ⟨rfl, rfl, rfl⟩

/-- C1 witness: the amended theorem applied to the concrete TYPE
tile — without a resolver one empty-string act call is recorded, and
with a resolver that finds nothing the step fails naming the current
page's domain with no act call. -/
theorem c1_witness :
    ((executeTile c1Tile stubAdapter emptyBag none).2
      = [AEvent.act ("Type \"\" into the password field")]) ∧
    executeTile c1Tile stubAdapter emptyBag (some noCredResolver)
      = ({ tileId := "t", status := .failed,
           error := some ("No credentials found for domain: portal.example") },
         [AEvent.currentUrl, AEvent.resolve ("portal.example")]) := by
  have h := c1_type_credential c1Tile stubAdapter emptyBag rfl rfl rfl rfl
  refine ⟨h.2.1, ?_⟩
  exact h.2.2 noCredResolver ("https://portal.example/login") ("portal.example")
    rfl rfl rfl

/-- The compiler's copy of the ordering walk equals the runner's. -/
theorem walkTilesC_eq_walkTiles : ∀ (fuel : Nat) (tiles : List Tile) (cur : Tile)
    (visited : List String),
    walkTilesC tiles fuel cur visited = walkTiles tiles fuel cur visited := by
  intro fuel
  induction fuel with
  | zero => intro tiles cur visited; rfl
  | succ f ih =>
    intro tiles cur visited
    simp only [walkTilesC, walkTiles]
    by_cases h : cur.id ∈ visited
    · simp [h]
    · simp only [h, if_false]
      cases cur.connections.output with
      | none => rfl
      | some nid =>
        simp only []
        cases tiles.find? (fun t => t.id = nid) with
        | none => rfl
        | some nxt => simp [ih]

/-- The compiler's sortTiles equals the runner's. -/
theorem sortTilesC_eq_sortTiles (ts : List Tile) : sortTilesC ts = sortTiles ts := by
  unfold sortTilesC sortTiles
  cases ts.find? (fun t => t.connections.input = none) with
  | none => rfl
  | some start => simp [walkTilesC_eq_walkTiles]

/-- Insertion-ordered set union as a fold over a flat name list. -/
def dedupNames (l : List String) : List String := addVars [] l

/-- Adding a concatenation is adding the parts in turn. -/
theorem addVars_append (s : List String) (a b : List String) :
    addVars s (a ++ b) = addVars (addVars s a) b := by
  unfold addVars
  exact List.foldl_append addVar s a b

/-- One FORM field fold step adds the field's flat name list. -/
theorem formFold_eq : ∀ (fs : List FormField) (s : List String),
    fs.foldl (fun acc f =>
      let a1 := addVars acc (phNames f.instruction)
      let a2 := if truthyStr f.value then addVars a1 (phNames (f.value.getD "")) else a1
      if truthyStr f.var then addVar a2 (f.var.getD "") else a2) s
    = addVars s ((fs.map (fun f => phNames f.instruction
        ++ (if truthyStr f.value then phNames (f.value.getD "") else [])
        ++ (if truthyStr f.var then [f.var.getD ""] else []))).flatten) := by
  intro fs
  induction fs with
  | nil => intro s; rfl
  | cons f rest ih =>
    intro s
    have hone : (let a1 := addVars s (phNames f.instruction)
        let a2 := if truthyStr f.value then addVars a1 (phNames (f.value.getD "")) else a1
        if truthyStr f.var then addVar a2 (f.var.getD "") else a2)
      = addVars s (phNames f.instruction
        ++ (if truthyStr f.value then phNames (f.value.getD "") else [])
        ++ (if truthyStr f.var then [f.var.getD ""] else [])) := by
      by_cases hv : truthyStr f.value = true <;>
        by_cases hr : truthyStr f.var = true <;>
          simp [hv, hr, addVars_append, addVars, addVar]
    simp only [List.foldl_cons, List.map_cons, List.flatten_cons]
    rw [hone, ih]
    simp [addVars_append]

/-- One generator step extends the two sets with the tile's flat
input and output name lists. -/
theorem collectTile_eq (st : List String × List String) (t : Tile) :
    collectTile st t = (addVars st.1 (tileInputNames t), addVars st.2 (tileOutputNames t)) := by
  unfold collectTile tileInputNames tileOutputNames
  split
  · simp_all [addVars]
  · simp_all [addVars]
  · by_cases hv : truthyStr t.parameters.value = true <;>
      by_cases hr : truthyStr t.parameters.var = true <;>
        simp_all [hv, hr, addVars_append, addVars, addVar]
  · simp_all [addVars]
  · simp_all [addVars, addVar]
  · simp_all [addVars]
  · simp_all [addVars]
  · simp_all [addVars_append, addVars]
  · rename_i heq
    rw [heq]
    simp only [Prod.mk.injEq]
    constructor
    · exact formFold_eq t.parameters.fields st.1
    · rfl
  · simp_all [addVars]

/-- Folding the generator over tiles unions their flat name lists. -/
theorem foldl_collectTile : ∀ (ts : List Tile) (st : List String × List String),
    ts.foldl collectTile st
      = (addVars st.1 ((ts.map tileInputNames).flatten),
         addVars st.2 ((ts.map tileOutputNames).flatten)) := by
  intro ts
  induction ts with
  | nil => intro st; rfl
  | cons t rest ih =>
    intro st
    simp only [List.foldl_cons, List.map_cons, List.flatten_cons]
    rw [collectTile_eq, ih]
    simp [addVars_append]

/-- C8 (amended): the code generator orders steps with a function
extensionally equal to the runner's ordering; its reported input
variables are the placeholder-referenced names plus the directly
referenced variable parameters of TYPE and FORM tiles, collected in
first-occurrence order over the entry-reachable ordered steps, and
its reported output variables are the declared output variable names
of the EXTRACT steps among them.  The generation is a pure function
of the blueprint (it takes no provider and performs no call). -/
theorem c8_compiler_vars (tiles : List Tile) :
    (∀ ts : List Tile, sortTilesC ts = sortTiles ts) ∧
    (compileVars tiles).1 = dedupNames (((sortTiles tiles).map tileInputNames).flatten) ∧
    (compileVars tiles).2 = dedupNames (((sortTiles tiles).map tileOutputNames).flatten) := by
  refine ⟨sortTilesC_eq_sortTiles, ?_, ?_⟩ <;>
    simp [compileVars, sortTilesC_eq_sortTiles, foldl_collectTile, dedupNames]

/-- A TYPE tile that references the variable first directly, with no
interpolation placeholder anywhere in its parameters. -/
def c8Tile : Tile :=
  { id := "v", type := "TYPE",
    parameters := { instruction := some ("name field"), var := some ("first") } }

/-- C8 counterexample: the generator reports first as an input
variable although no interpolation placeholder references it in any
step's parameters, refuting the claim that the input set is exactly
the placeholder-referenced names. -/
theorem c8_counterexample :
    (compileVars [c8Tile]).1 = ["first"] ∧
    specPlaceholderNames [c8Tile] = [] := by
  exact ⟨rfl, rfl⟩

/-! ### Interpolation lemmas -/

/-- Characters of a takeWhile result satisfy the predicate. -/
theorem mem_takeWhile_pred (p : Char → Bool) : ∀ (l : List Char) (c : Char),
    c ∈ l.takeWhile p → p c = true := by
  intro l
  induction l with
  | nil => intro c h; simp [List.takeWhile] at h
  | cons a l ih =>
    intro c h
    by_cases ha : p a
    · simp [List.takeWhile, ha] at h
      rcases h with h | h
      · rw [h]; exact ha
      · exact ih c h
    · simp [List.takeWhile, ha] at h

/-- takeWhile and dropWhile on a word followed by a non-word
character split exactly at the boundary. -/
theorem takeWhile_word (p : Char → Bool) : ∀ (w : List Char) (x : Char) (tl : List Char),
    (∀ c ∈ w, p c = true) → p x = false →
    (w ++ x :: tl).takeWhile p = w ∧ (w ++ x :: tl).dropWhile p = x :: tl := by
  intro w
  induction w with
  | nil =>
    intro x tl _ hx
    simp [List.takeWhile, List.dropWhile, hx]
  | cons c w ih =>
    intro x tl hw hx
    have hc : p c = true := hw c (by simp)
    have := ih x tl (fun d hd => hw d (by simp [hd])) hx
    simp [List.takeWhile, List.dropWhile, hc, this.1, this.2]

/-- Rendering a run of literal segments is the identity. -/
theorem renderSegs_lits (vars : Bag) : ∀ (cs : List Char),
    renderSegs vars (cs.map Seg.lit) = cs := by
  intro cs
  induction cs with
  | nil => rfl
  | cons c cs ih => simp [renderSegs, renderSeg, ih]

/-- The source text of a run of literal segments is the run itself. -/
theorem segsText_lits : ∀ (cs : List Char),
    segsText (cs.map Seg.lit) = cs := by
  intro cs
  induction cs with
  | nil => rfl
  | cons c cs ih => simp [segsText, segText, ih]

/-- interpolate's replace equals the substitution semantics of the
scan: the scan tokenizes and renderSegs substitutes. -/
theorem interpAux_eq_render (vars : Bag) : ∀ (fuel : Nat) (cs : List Char),
    interpAux vars fuel cs = renderSegs vars (scanSegs fuel cs) := by
  intro fuel
  induction fuel with
  | zero =>
    intro cs
    simp [interpAux, scanSegs, renderSegs_lits]
  | succ fuel ih =>
    intro cs
    match cs with
    | [] => rfl
    | c :: cs =>
      simp only [interpAux, scanSegs]
      by_cases h1 : c = '\x7b' ∧ cs.head? = some '\x7b'
      · rw [if_pos h1, if_pos h1]
        by_cases h2 : cs.tail.takeWhile isWordChar ≠ [] ∧
            (cs.tail.dropWhile isWordChar).take 2 = ['\x7d', '\x7d']
        · rw [if_pos h2, if_pos h2]
          simp [renderSegs, ih]
        · rw [if_neg h2, if_neg h2]
          simp [renderSegs, renderSeg, ih]
      · rw [if_neg h1, if_neg h1]
        simp [renderSegs, renderSeg, ih]

/-- The scan is a decomposition of the input: re-rendering every
segment's source text gives the input back. -/
theorem segsText_scan : ∀ (fuel : Nat) (cs : List Char),
    segsText (scanSegs fuel cs) = cs := by
  intro fuel
  induction fuel with
  | zero =>
    intro cs
    simp [scanSegs, segsText_lits]
  | succ fuel ih =>
    intro cs
    match cs with
    | [] => rfl
    | c :: cs =>
      simp only [scanSegs]
      by_cases h1 : c = '\x7b' ∧ cs.head? = some '\x7b'
      · rw [if_pos h1]
        by_cases h2 : cs.tail.takeWhile isWordChar ≠ [] ∧
            (cs.tail.dropWhile isWordChar).take 2 = ['\x7d', '\x7d']
        · rw [if_pos h2]
          obtain ⟨hc, hh⟩ := h1
          match cs, hh with
          | c2 :: rest, hh =>
            simp only [List.head?_cons, Option.some.injEq] at hh
            subst hc hh
            simp only [List.tail_cons] at h2 ⊢
            have hsplit := List.takeWhile_append_dropWhile isWordChar rest
            have htake := List.take_append_drop 2 (rest.dropWhile isWordChar)
            rw [h2.2] at htake
            have htake2 : '\x7d' :: '\x7d' :: (rest.dropWhile isWordChar).drop 2
                = rest.dropWhile isWordChar := by simpa using htake
            simp only [segsText, segText, ih, List.cons_append, List.append_assoc,
              List.nil_append]
            rw [htake2, hsplit]
        · rw [if_neg h2]
          simp [segsText, segText, ih]
      · rw [if_neg h1]
        simp [segsText, segText, ih]

/-- When every placeholder the scan found is unbound, substitution
re-renders the original text. -/
theorem renderSegs_all_unbound (vars : Bag) : ∀ (segs : List Seg),
    (∀ w, Seg.ph w ∈ segs → vars (String.mk w) = none) →
    renderSegs vars segs = segsText segs := by
  intro segs
  induction segs with
  | nil => intro _; rfl
  | cons s rest ih =>
    intro h
    match s with
    | .lit c =>
      simp only [renderSegs, segsText, renderSeg, segText]
      rw [ih (fun w hw => h w (by simp [hw]))]
    | .ph w =>
      have hw := h w (by simp)
      simp only [renderSegs, segsText, renderSeg, segText, hw]
      rw [ih (fun w2 hw2 => h w2 (by simp [hw2]))]

/-- A placeholder occurrence anywhere extends through a prepended
front part. -/
theorem hasPlaceholder_prepend (pre : List Char) (cs : List Char)
    (h : hasPlaceholder cs) : hasPlaceholder (pre ++ cs) := by
  obtain ⟨front, w, back, hdec, hne, hword⟩ := h
  exact ⟨pre ++ front, w, back, by rw [hdec, List.append_assoc], hne, hword⟩

/-- Every placeholder segment the scan emits is a genuine occurrence
of the placeholder pattern in the input. -/
theorem scan_ph_hasPlaceholder : ∀ (fuel : Nat) (cs : List Char) (w : List Char),
    Seg.ph w ∈ scanSegs fuel cs → hasPlaceholder cs := by
  intro fuel
  induction fuel with
  | zero =>
    intro cs w h
    simp [scanSegs, List.mem_map] at h
  | succ fuel ih =>
    intro cs w h
    match cs with
    | [] => simp [scanSegs] at h
    | c :: cs =>
      simp only [scanSegs] at h
      by_cases h1 : c = '\x7b' ∧ cs.head? = some '\x7b'
      · rw [if_pos h1] at h
        by_cases h2 : cs.tail.takeWhile isWordChar ≠ [] ∧
            (cs.tail.dropWhile isWordChar).take 2 = ['\x7d', '\x7d']
        · rw [if_pos h2] at h
          obtain ⟨hc, hh⟩ := h1
          match cs, hh with
          | c2 :: rest, hh =>
            simp only [List.head?_cons, Option.some.injEq] at hh
            subst hc hh
            simp only [List.tail_cons] at h h2
            have hsplit := List.takeWhile_append_dropWhile isWordChar rest
            have htake := List.take_append_drop 2 (rest.dropWhile isWordChar)
            rw [h2.2] at htake
            have htake2 : '\x7d' :: '\x7d' :: (rest.dropWhile isWordChar).drop 2
                = rest.dropWhile isWordChar := by simpa using htake
            have hdecomp : rest.takeWhile isWordChar
                ++ ('\x7d' :: '\x7d' :: (rest.dropWhile isWordChar).drop 2) = rest := by
              rw [htake2, hsplit]
            rcases List.mem_cons.mp h with h | h
            · refine ⟨[], rest.takeWhile isWordChar, (rest.dropWhile isWordChar).drop 2,
                ?_, h2.1, ?_⟩
              · simp only [List.nil_append]
                rw [hdecomp]
              · intro d hd
                exact mem_takeWhile_pred isWordChar rest d hd
            · have hsub := ih _ w h
              have h3 := hasPlaceholder_prepend
                ('\x7b' :: '\x7b' :: (rest.takeWhile isWordChar ++ ['\x7d', '\x7d'])) _ hsub
              have hrw : ('\x7b' :: '\x7b' :: (rest.takeWhile isWordChar ++ ['\x7d', '\x7d']))
                  ++ (rest.dropWhile isWordChar).drop 2
                  = '\x7b' :: '\x7b' :: rest := by
                simp only [List.cons_append, List.append_assoc, List.nil_append]
                rw [htake2, hsplit]
              rwa [hrw] at h3
        · rw [if_neg h2] at h
          rcases List.mem_cons.mp h with h | h
          · simp at h
          · exact hasPlaceholder_prepend [c] _ (ih _ w h)
      · rw [if_neg h1] at h
        rcases List.mem_cons.mp h with h | h
        · simp at h
        · exact hasPlaceholder_prepend [c] _ (ih _ w h)

/-- A genuine placeholder occurrence guarantees the scan emits some
placeholder segment (given enough fuel). -/
theorem hasPlaceholder_scan_ph : ∀ (fuel : Nat) (cs : List Char),
    hasPlaceholder cs → cs.length ≤ fuel →
    ∃ w, Seg.ph w ∈ scanSegs fuel cs := by
  intro fuel
  induction fuel with
  | zero =>
    intro cs h hlen
    obtain ⟨front, w, back, hdec, hne, _⟩ := h
    subst hdec
    simp at hlen
  | succ fuel ih =>
    intro cs h hlen
    obtain ⟨front, w, back, hdec, hne, hword⟩ := h
    match front, hdec with
    | [], hdec =>
      subst hdec
      have hw := takeWhile_word isWordChar w '\x7d' ('\x7d' :: back) hword (by decide)
      refine ⟨w, ?_⟩
      simp only [List.nil_append, scanSegs]
      rw [if_pos (by simp)]
      simp only [List.tail_cons]
      rw [if_pos (by exact ⟨by rw [hw.1]; exact hne, by rw [hw.2]; rfl⟩ :
        (List.takeWhile isWordChar (w ++ '\x7d' :: '\x7d' :: back) ≠ [] ∧
         List.take 2 (List.dropWhile isWordChar (w ++ '\x7d' :: '\x7d' :: back))
           = ['\x7d', '\x7d']))]
      rw [hw.1]
      simp
    | c :: front2, hdec =>
      subst hdec
      have hsub : hasPlaceholder
          (front2 ++ ('\x7b' :: '\x7b' :: (w ++ ('\x7d' :: '\x7d' :: back)))) :=
        ⟨front2, w, back, rfl, hne, hword⟩
      have hlen2 : (front2 ++ ('\x7b' :: '\x7b' :: (w ++ ('\x7d' :: '\x7d' :: back)))).length
          ≤ fuel := by
        simp only [List.cons_append, List.length_cons] at hlen
        omega
      obtain ⟨w2, hw2⟩ := ih _ hsub hlen2
      show ∃ w2, Seg.ph w2 ∈ scanSegs (fuel + 1)
        (c :: (front2 ++ ('\x7b' :: '\x7b' :: (w ++ ('\x7d' :: '\x7d' :: back)))))
      simp only [scanSegs]
      by_cases h1 : c = '\x7b' ∧
          (front2 ++ ('\x7b' :: '\x7b' :: (w ++ ('\x7d' :: '\x7d' :: back)))).head?
            = some '\x7b'
      · rw [if_pos h1]
        by_cases h2 :
            (front2 ++ ('\x7b' :: '\x7b' :: (w ++ ('\x7d' :: '\x7d' :: back)))).tail.takeWhile
              isWordChar ≠ [] ∧
            ((front2 ++ ('\x7b' :: '\x7b' :: (w ++ ('\x7d' :: '\x7d' :: back)))).tail.dropWhile
              isWordChar).take 2 = ['\x7d', '\x7d']
        · rw [if_pos h2]
          exact ⟨(front2 ++ ('\x7b' :: '\x7b' :: (w ++ ('\x7d' :: '\x7d' :: back)))
            ).tail.takeWhile isWordChar, by simp⟩
        · rw [if_neg h2]
          exact ⟨w2, by simp [hw2]⟩
      · rw [if_neg h1]
        exact ⟨w2, by simp [hw2]⟩

/-- C5: interpolation equals occurrence-wise substitution — the
template decomposes into literal characters and placeholder
occurrences (conjunct 2), every occurrence whose name is bound is
replaced by the default string conversion of the bound value and
every occurrence whose name is absent stays intact byte-for-byte
(conjunct 1 with the renderSeg semantics), a template all of whose
placeholders are unbound is returned unchanged (no exception, no
empty-string substitution), and a template containing no placeholder
occurrence at all is returned unchanged. -/
theorem c5_interpolation (vars : Bag) (t : String) :
    ((interpolate t vars).data = renderSegs vars (scanSegs t.data.length t.data)) ∧
    (String.mk (segsText (scanSegs t.data.length t.data)) = t) ∧
    ((∀ w, Seg.ph w ∈ scanSegs t.data.length t.data → vars (String.mk w) = none) →
      interpolate t vars = t) ∧
    (¬ hasPlaceholder t.data → interpolate t vars = t) := by
  have h1 : (interpolate t vars).data = renderSegs vars (scanSegs t.data.length t.data) := by
    simp [interpolate, interpAux_eq_render]
  have h2 : String.mk (segsText (scanSegs t.data.length t.data)) = t := by
    rw [segsText_scan]
  have h3 : (∀ w, Seg.ph w ∈ scanSegs t.data.length t.data → vars (String.mk w) = none) →
      interpolate t vars = t := by
    intro hub
    have e1 : interpolate t vars
        = String.mk (renderSegs vars (scanSegs t.data.length t.data)) := by
      rw [← h1]
    rw [e1, renderSegs_all_unbound vars _ hub]
    exact h2
  refine ⟨h1, h2, h3, ?_⟩
  intro hnp
  exact h3 (fun w hw => absurd (scan_ph_hasPlaceholder _ _ w hw) hnp)

/-- C5 witness: a template whose only placeholder name is unbound is
returned byte-for-byte, and a template with no placeholders is
returned unchanged. -/
theorem c5_witness :
    interpolate ("Hi \x7b\x7bname\x7d\x7d") emptyBag = ("Hi \x7b\x7bname\x7d\x7d") ∧
    interpolate ("hello") xVars = ("hello") := by
  constructor
  · exact (c5_interpolation emptyBag ("Hi \x7b\x7bname\x7d\x7d")).2.2.1 (fun w _ => rfl)
  · refine (c5_interpolation xVars ("hello")).2.2.2 ?_
    intro h
    obtain ⟨w, hw⟩ :=
      hasPlaceholder_scan_ph (("hello" : String)).data.length (("hello" : String)).data h
        (Nat.le_refl _)
    have hs : scanSegs (("hello" : String)).data.length (("hello" : String)).data
        = [Seg.lit 'h', Seg.lit 'e', Seg.lit 'l', Seg.lit 'l', Seg.lit 'o'] := rfl
    rw [hs] at hw
    simp at hw

end Crane
